import Mathlib

/-!
Shallow embedding of the keyfile settings plugin
(`src/settings/plugins/keyfile/nms-keyfile-plugin.c`): tier classification,
directory scanning, per-uuid merge resolution, the reload orchestrator and
the single-file loader, together with proofs about the claims of the
specification.
-/

namespace NMKeyfile

/-- The storage tiers of `NMSKeyfileStorageType`: `run` is the volatile
run-directory tier, `etc` the persistent tier, `lib` the read-only tier and
`mem` the in-memory ("ephemeral") tier. -/
inductive StorageType where
  | run
  | etc
  | lib
  | mem
deriving DecidableEq, Repr

/-- A parsed connection profile (`NMConnection`), reduced to the fields the
plugin inspects: the uuid, the id, the remaining (non-secret) settings, and
the two classes of secret fields the change-detection comparison ignores. -/
structure NMConnection where
  uuid : String
  ident : String
  settings : String
  agentOwnedSecrets : String
  notSavedSecrets : String
deriving DecidableEq, Repr

/-- Modelled from the spec: `nm_connection_compare` with
`NM_SETTING_COMPARE_FLAG_IGNORE_AGENT_OWNED_SECRETS` and
`NM_SETTING_COMPARE_FLAG_IGNORE_NOT_SAVED_SECRETS` (the codec collaborator
is not part of src/). Two profiles compare equal exactly when everything
except the agent-owned and not-saved secret fields agrees. -/
def nm_connection_compare_ignore_secrets (a b : NMConnection) : Bool :=
  a.uuid = b.uuid && a.ident = b.ident && a.settings = b.settings

/-- File stat metadata captured at decode time (`struct stat`):
modification time (seconds and nanoseconds), device id and inode. -/
structure FileStat where
  mtimeSec : Int
  mtimeNsec : Int
  dev : Nat
  ino : Nat
deriving DecidableEq, Repr

/-- `p` is an initial segment of `s` (as character lists). -/
def listStarts : List Char → List Char → Bool
  | [], _ => true
  | _ :: _, [] => false
  | a :: as, b :: bs => a = b && listStarts as bs

/-- `String.startsWith`, realized on character lists so that it computes
by kernel reduction. -/
def strStarts (s p : String) : Bool := listStarts p.toList s.toList

/-- `String.endsWith`, realized on character lists. -/
def strEnds (s p : String) : Bool :=
  listStarts p.toList.reverse s.toList.reverse

/-- The characters after the last `/`. -/
def afterLastSlash (l : List Char) : List Char :=
  l.foldl (fun acc c => if c = '/' then [] else acc ++ [c]) []

/-- The bare filename of a path: everything after the last `/`
(`strrchr (full_filename, '/') + 1` in `_conn_info_storage_data_new`). -/
def basenameOf (s : String) : String :=
  String.mk (afterLastSlash s.toList)

/-- One file observation for a uuid (`ConnInfoStorageData`). -/
structure ConnInfoStorageData where
  storage_priority : Nat
  storage_type : StorageType
  full_filename : String
  filename : String
  connection : Option NMConnection
  stat_mtime_sec : Int
  stat_mtime_nsec : Int
  stat_dev : Nat
  stat_ino : Nat
deriving DecidableEq, Repr

/-- `_conn_info_storage_data_new`: builds an observation from the priority,
tier, full path, decoded connection and stat result. -/
def _conn_info_storage_data_new (storage_priority : Nat)
    (storage_type : StorageType) (full_filename : String)
    (connection : Option NMConnection) (st : FileStat) :
    ConnInfoStorageData :=
  { storage_priority := storage_priority
    storage_type := storage_type
    full_filename := full_filename
    filename := basenameOf full_filename
    connection := connection
    stat_mtime_sec := st.mtimeSec
    stat_mtime_nsec := st.mtimeNsec
    stat_dev := st.dev
    stat_ino := st.ino }

/-- Three-way comparison derived from a linear order (the C comparisons of
`NM_CMP_FIELD` reduce to this shape). -/
def cmpVia {α : Type} [LinearOrder α] (a b : α) : Ordering :=
  if a < b then Ordering.lt else if b < a then Ordering.gt else Ordering.eq

/-- `_conn_info_storage_data_cmp`: sort key of the observation list.
Ascending storage priority (smaller is more important), then descending
mtime seconds and nanoseconds (newer first), then ascending filename. -/
def _conn_info_storage_data_cmp (a b : ConnInfoStorageData) : Ordering :=
  (cmpVia a.storage_priority b.storage_priority).then
    ((cmpVia b.stat_mtime_sec a.stat_mtime_sec).then
      ((cmpVia b.stat_mtime_nsec a.stat_mtime_nsec).then
        (cmpVia a.filename b.filename)))

/-- Boolean "less or equal" for the observation sort: `a` need not come
strictly before `b`. `c_list_sort` with `_conn_info_storage_data_cmp` orders
the list exactly by this relation. -/
def cisdLE (a b : ConnInfoStorageData) : Bool :=
  match _conn_info_storage_data_cmp a b with
  | Ordering.gt => false
  | _ => true

/-- `c_list_sort` with `_conn_info_storage_data_cmp`: a stable sort of the
observation list by `cisdLE`. `c_list_sort` is a stable merge sort; the
stable sort of a list by a total transitive relation is unique, and it is
realized here by the (stable) insertion sort, which is structurally
recursive and therefore computes. -/
def sortObs (l : List ConnInfoStorageData) : List ConnInfoStorageData :=
  @List.insertionSort ConnInfoStorageData (fun a b => cisdLE a b = true)
    (fun a b => instDecidableEqBool (cisdLE a b) true) l

/-- One record of the index (`NMSKeyfileConnInfo`): the uuid, the
observation list of the current scan, the exported tier (`none` models the
zero-initialized "nothing exported yet" enum value), the exported
connection, the opaque storage handle (`NMSKeyfileStorage`, modelled by a
numeric handle id), and the two transient loaded-hint fields. -/
structure NMSKeyfileConnInfo where
  uuid : String
  cisd_lst : List ConnInfoStorageData
  storage_type_exported : Option StorageType
  connection_exported : Option NMConnection
  storage : Option Nat
  loaded_path_run : Option String
  loaded_path_etc : Option String
deriving DecidableEq, Repr

/-- `_conn_info_new`: a fresh record for a uuid. -/
def _conn_info_new (uuid : String) : NMSKeyfileConnInfo :=
  { uuid := uuid
    cisd_lst := []
    storage_type_exported := none
    connection_exported := none
    storage := none
    loaded_path_run := none
    loaded_path_etc := none }

/-- `_conn_info_has_equal_connection`: the record's exported connection
exists and equals the given connection under the secret-ignoring
comparison. -/
def _conn_info_has_equal_connection (conn_info : NMSKeyfileConnInfo)
    (connection : NMConnection) : Bool :=
  match conn_info.connection_exported with
  | some exported => nm_connection_compare_ignore_secrets connection exported
  | none => false

/-- What the external codec / hint reader makes of one directory entry:
a decodable profile with its stat result, an undecodable file, a readable
loaded-hint marker (`nms_keyfile_loaded_uuid_read` succeeds, yielding uuid
and target path), or anything else. -/
inductive FileContent where
  | profile (conn : NMConnection) (st : FileStat)
  | badProfile
  | hintFile (uuid : String) (target : String)
  | junk
deriving DecidableEq, Repr

/-- The filesystem as seen by the plugin: directory listings (a missing
directory cannot be opened) and the results of the extra `stat` calls made
by `_conn_info_storage_data_prioritize_loaded`. -/
structure Filesystem where
  dirs : List (String × List (String × FileContent))
  stats : List (String × FileStat)
deriving DecidableEq, Repr

/-- `g_dir_open` + `g_dir_read_name`: the entries of a directory, or `none`
when the directory cannot be opened. -/
def Filesystem.readDir (fs : Filesystem) (d : String) :
    Option (List (String × FileContent)) :=
  (fs.dirs.find? (fun p => p.fst = d)).map Prod.snd

/-- `stat`: the stat result for a path, or `none` when the call fails. -/
def Filesystem.statPath (fs : Filesystem) (p : String) : Option FileStat :=
  (fs.stats.find? (fun q => q.fst = p)).map Prod.snd

/-- Modelled from the spec: the exclusion (backup/temporary/hidden) filename
patterns rejected by every tier; `nm_keyfile_utils_ignore_filename` itself
is not part of src/. -/
def filenameIsExcluded (filename : String) : Bool :=
  filename = "" || strStarts filename "." || strEnds filename "~" ||
  strEnds filename ".tmp" || strEnds filename ".bak"

/-- Modelled from the spec: the required keyfile suffix. -/
def NM_KEYFILE_EXTENSION : String := ".nmconnection"

/-- Modelled from the spec: `nm_keyfile_utils_ignore_filename` (not part of
src/) rejects excluded filenames always, and filenames lacking the required
suffix when an extension is required. -/
def nm_keyfile_utils_ignore_filename (filename : String)
    (requires_extension : Bool) : Bool :=
  filenameIsExcluded filename ||
  (requires_extension && !(strEnds filename NM_KEYFILE_EXTENSION))

/-- `_ignore_filename`: for backward compatibility no extension is required
for files of the persistent (`etc`) tier. -/
def _ignore_filename (storage_type : StorageType) (filename : String) :
    Bool :=
  nm_keyfile_utils_ignore_filename filename
    (decide (storage_type ≠ StorageType.etc))

/-- Modelled from the spec: `nm_utils_file_is_in_path` (not part of src/)
returns the filename of a path lying directly in the given directory. -/
def nm_utils_file_is_in_path (full dir : String) : Option String :=
  let fl := full.toList
  let dl := dir.toList ++ ['/']
  if listStarts dl fl then
    let fn := fl.drop dl.length
    if fn ≠ [] ∧ ¬ fn.contains '/' then some (String.mk fn) else none
  else none

/-- Result of `_path_detect_storage_type`. -/
inductive DetectResult where
  | ok (storage_type : StorageType) (dirname : String) (filename : String)
  | err (msg : String)
deriving DecidableEq, Repr

/-- The read-only directory loop of `_path_detect_storage_type`: the first
configured lib directory containing the path, in configuration order. -/
def detectInLibs (full : String) : List String → Option (String × String)
  | [] => none
  | d :: rest =>
    match nm_utils_file_is_in_path full d with
    | some fn => some (d, fn)
    | none => detectInLibs full rest

/-- `_path_detect_storage_type`: classify an absolute path against the
configured directories, run first, then etc, then the lib directories in
configuration order; then apply the per-tier filename filter. -/
def _path_detect_storage_type (full_filename : String)
    (dirname_libs : List String) (dirname_etc dirname_run : Option String) :
    DetectResult :=
  if ¬ strStarts full_filename "/" then
    DetectResult.err "filename is not an absolute path"
  else
    let hit : Option (StorageType × String × String) :=
      match dirname_run.bind
          (fun dr => (nm_utils_file_is_in_path full_filename dr).map
            (fun fn => (dr, fn))) with
      | some (d, fn) => some (StorageType.run, d, fn)
      | none =>
        match dirname_etc.bind
            (fun de => (nm_utils_file_is_in_path full_filename de).map
              (fun fn => (de, fn))) with
        | some (d, fn) => some (StorageType.etc, d, fn)
        | none =>
          (detectInLibs full_filename dirname_libs).map
            (fun p => (StorageType.lib, p.1, p.2))
    match hit with
    | none => DetectResult.err "filename is not inside a keyfile directory"
    | some (t, d, fn) =>
      if _ignore_filename t fn then
        DetectResult.err "filename is not a valid keyfile"
      else DetectResult.ok t d fn

/-- Modelled from the spec: the masking sentinel target
(`NM_KEYFILE_PATH_NMLOADED_NULL`, a symlink to /dev/null meaning "treat
this uuid as absent"; the constant is not part of src/). -/
def NM_KEYFILE_PATH_NMLOADED_NULL : String := "/dev/null"

/-- Modelled from the spec: the compile-time run directory constant
(`NM_KEYFILE_PATH_NAME_RUN`, not part of src/), used by
`_do_load_connection` as the directory the loaded hint is written to. -/
def NM_KEYFILE_PATH_NAME_RUN : String :=
  "/run/NetworkManager/system-connections"

/-- The plugin state (`NMSKeyfilePluginPrivate` together with its
`IdxCollection`): configured directories, the record list in insertion
order (the `lst_head` list; the uuid hashtable is modelled by first-match
lookup in this list), the filename index and a counter for fresh opaque
handles. -/
structure PluginState where
  dirname_libs : List String
  dirname_etc : Option String
  dirname_run : Option String
  conn_infos : List NMSKeyfileConnInfo
  filename_idx : List (String × String)
  next_handle : Nat
deriving DecidableEq, Repr

/-- `_conn_infos_get`: lookup of a record by uuid. -/
def _conn_infos_get (infos : List NMSKeyfileConnInfo) (uuid : String) :
    Option NMSKeyfileConnInfo :=
  infos.find? (fun ci => ci.uuid = uuid)

/-- `_conn_infos_add`: find the record for a uuid, appending a fresh record
to the tail of the list when none exists yet. -/
def _conn_infos_add (infos : List NMSKeyfileConnInfo) (uuid : String) :
    List NMSKeyfileConnInfo :=
  if (_conn_infos_get infos uuid).isSome then infos
  else infos ++ [_conn_info_new uuid]

/-- In-place mutation of the record a uuid hashes to: rewrite the first
record with the given uuid. -/
def updateInfo (infos : List NMSKeyfileConnInfo) (uuid : String)
    (f : NMSKeyfileConnInfo → NMSKeyfileConnInfo) :
    List NMSKeyfileConnInfo :=
  match infos with
  | [] => []
  | ci :: rest =>
    if ci.uuid = uuid then f ci :: rest else ci :: updateInfo rest uuid f

/-- One directory entry as seen by `_load_dir`: the priority and tier of
the directory being walked, the directory name, the entry's filename and
its content. -/
structure ScanItem where
  storage_priority : Nat
  storage_type : StorageType
  dirname : String
  filename : String
  content : FileContent
deriving DecidableEq, Repr

/-- The observation built by `_load_dir` for a successfully decoded entry. -/
def scanStorageData (it : ScanItem) (conn : NMConnection) (st : FileStat) :
    ConnInfoStorageData :=
  _conn_info_storage_data_new it.storage_priority it.storage_type
    (it.dirname ++ "/" ++ it.filename) (some conn) st

/-- What one iteration of the `_load_dir` loop does with an entry. -/
inductive ItemAction where
  | skip
  | obs (uuid : String) (sd : ConnInfoStorageData)
  | hintRun (uuid : String) (target : String)
  | hintEtc (uuid : String) (target : String)
deriving DecidableEq, Repr

/-- The branch structure of the `_load_dir` loop body: an ignored filename
is probed as a loaded-hint marker (honored only for the run and etc tiers);
any other filename is handed to the codec, and only a successful decode
produces an observation. -/
def itemAction (it : ScanItem) : ItemAction :=
  if _ignore_filename it.storage_type it.filename then
    match it.content with
    | FileContent.hintFile uuid target =>
      if it.storage_type = StorageType.run then ItemAction.hintRun uuid target
      else if it.storage_type = StorageType.etc then
        ItemAction.hintEtc uuid target
      else ItemAction.skip
    | _ => ItemAction.skip
  else
    match it.content with
    | FileContent.profile conn st =>
      ItemAction.obs conn.uuid (scanStorageData it conn st)
    | _ => ItemAction.skip

/-- One iteration of the `_load_dir` loop over the record collection:
skipped entries leave the collection alone; an observation is appended to
the tail of its record's list; a hint overwrites the record's transient
hint field for its tier; in each case the record is created first if the
uuid is new. -/
def scanStep (infos : List NMSKeyfileConnInfo) (it : ScanItem) :
    List NMSKeyfileConnInfo :=
  match itemAction it with
  | ItemAction.skip => infos
  | ItemAction.obs uuid sd =>
    updateInfo (_conn_infos_add infos uuid) uuid
      (fun ci => { ci with cisd_lst := ci.cisd_lst ++ [sd] })
  | ItemAction.hintRun uuid target =>
    updateInfo (_conn_infos_add infos uuid) uuid
      (fun ci => { ci with loaded_path_run := some target })
  | ItemAction.hintEtc uuid target =>
    updateInfo (_conn_infos_add infos uuid) uuid
      (fun ci => { ci with loaded_path_etc := some target })

/-- `_load_dir` for one directory: an unset or unopenable directory is
skipped silently, otherwise every entry is turned into a scan item. -/
def dirItems (fs : Filesystem) (storage_priority : Nat)
    (storage_type : StorageType) : Option String → List ScanItem
  | none => []
  | some d =>
    match fs.readDir d with
    | none => []
    | some entries =>
      entries.map (fun e =>
        { storage_priority := storage_priority
          storage_type := storage_type
          dirname := d
          filename := e.fst
          content := e.snd })

/-- The lib-directory loop of `_do_reload_all`: directory `i` gets
priority `2 + i`. -/
def libItems (fs : Filesystem) : Nat → List String → List ScanItem
  | _, [] => []
  | i, d :: rest =>
    dirItems fs (2 + i) StorageType.lib (some d) ++ libItems fs (i + 1) rest

/-- The full entry stream of one rescan: run directory (priority 0), etc
directory (priority 1), then the lib directories (priority 2 + i). -/
def entryStream (fs : Filesystem) (dirname_run dirname_etc : Option String)
    (dirname_libs : List String) : List ScanItem :=
  dirItems fs 0 StorageType.run dirname_run ++
  dirItems fs 1 StorageType.etc dirname_etc ++
  libItems fs 0 dirname_libs

/-- The scan half of `_do_reload_all`: clear the filename index, clear
every record's observation list, then walk all configured directories. -/
def scanPhase (fs : Filesystem) (st : PluginState) : PluginState :=
  { st with
    filename_idx := []
    conn_infos :=
      (entryStream fs st.dirname_run st.dirname_etc st.dirname_libs).foldl
        scanStep
        (st.conn_infos.map (fun ci => { ci with cisd_lst := [] })) }

/-- The body of the `while` loop of
`_conn_info_storage_data_prioritize_loaded`, with explicit fuel. Each
iteration calls `c_list_first_entry`, i.e. re-examines the FIRST entry of
the list; nothing in the loop body advances or unlinks, so when a non-empty
list's first entry does not match the stat result, the next iteration sees
the very same entry again. `none` means the fuel ran out without the loop
returning. -/
def prioritize_loaded_loop (st_loaded : FileStat)
    (cisd : List ConnInfoStorageData) : Nat → Option Bool
  | 0 => none
  | fuel + 1 =>
    match cisd with
    | [] => some false
    | sd :: _ =>
      if sd.stat_dev = st_loaded.dev ∧ sd.stat_ino = st_loaded.ino then
        some true
      else prioritize_loaded_loop st_loaded cisd fuel

/-- `_conn_info_storage_data_prioritize_loaded`: reject non-absolute
targets, `stat` the target, then run the first-entry loop. The returned
list is the (possibly re-fronted) observation list; since the loop only
ever examines the first entry, a matching entry is necessarily already at
the front and the list is returned unchanged, while a non-empty list whose
first entry does not match never terminates — modelled as `none`. -/
def _conn_info_storage_data_prioritize_loaded (fs : Filesystem)
    (cisd : List ConnInfoStorageData) (loaded_path : String) :
    Option (Bool × List ConnInfoStorageData) :=
  if ¬ strStarts loaded_path "/" then some (false, cisd)
  else
    match fs.statPath loaded_path with
    | none => some (false, cisd)
    | some st_loaded =>
      match cisd with
      | [] => some (false, [])
      | sd :: rest =>
        if sd.stat_dev = st_loaded.dev ∧ sd.stat_ino = st_loaded.ino then
          some (true, sd :: rest)
        else none

/-- The "find and steal the loaded-path" step at the top of the per-record
loop of `_do_reload_all`: a run-tier hint wins outright and shadows an
etc-tier hint; otherwise the etc-tier hint is used. -/
def consolidateHint (ci : NMSKeyfileConnInfo) : Option String :=
  match ci.loaded_path_run with
  | some p => some p
  | none => ci.loaded_path_etc

/-- The hint handling of `_do_reload_all` after sorting: the masking
sentinel sets `loaded_path_masked`; any other hint is resolved via
`_conn_info_storage_data_prioritize_loaded` and discarded when that fails.
Returns (masked, observation list), or `none` when the prioritize loop does
not terminate. -/
def applyHint (fs : Filesystem) (sorted : List ConnInfoStorageData) :
    Option String → Option (Bool × List ConnInfoStorageData)
  | none => some (false, sorted)
  | some p =>
    if p = NM_KEYFILE_PATH_NMLOADED_NULL then some (true, sorted)
    else
      match _conn_info_storage_data_prioritize_loaded fs sorted p with
      | none => none
      | some (_, lst) => some (false, lst)

/-- The per-record outcome of the reload loop: the surviving record (or
`none` when it was removed from the index), the queued removal event, the
queued add/modify event (as the uuid appended to `events_mod`), and the
handle counter after `_conn_info_ensure_storage`. -/
structure RecordStep where
  kept : Option NMSKeyfileConnInfo
  del_event : Option (String × Option Nat)
  mod_event : Option String
  next_handle : Nat
deriving DecidableEq, Repr

/-- `_conn_info_ensure_storage`: lazily create the opaque handle once an
exported connection exists. -/
def _conn_info_ensure_storage (ci : NMSKeyfileConnInfo) (n : Nat) :
    NMSKeyfileConnInfo × Nat :=
  if ci.storage.isNone ∧ ci.connection_exported.isSome then
    ({ ci with storage := some n }, n + 1)
  else (ci, n)

/-- The `prepare_post` cleanup: per-observation connections are dropped
(they are scan-scoped). -/
def clearSdConnections (lst : List ConnInfoStorageData) :
    List ConnInfoStorageData :=
  lst.map (fun sd => { sd with connection := none })

/-- The removal event queued when a record with an exported connection
loses its winner: the uuid and the current opaque handle
(`g_object_ref (conn_info->storage)`). -/
def delEventIf (ci : NMSKeyfileConnInfo) : Option (String × Option Nat) :=
  if ci.connection_exported.isSome then some (ci.uuid, ci.storage) else none

/-- The `modified` test of the winner branch (line 716): the best
observation's connection differs from the exported one under the
secret-ignoring comparison. -/
def winnerModified (ci : NMSKeyfileConnInfo) (best : ConnInfoStorageData) :
    Bool :=
  !(match best.connection with
    | some c => _conn_info_has_equal_connection ci c
    | none => false)

/-- The branches of the per-record loop of `_do_reload_all` after hint
handling, for a record whose hint fields are already stolen: the in-memory
(`mem`) branch leaves exported state alone; an empty list removes the
record (queuing a removal if it was exported); a masked record keeps its
files but clears exported connection and handle (queuing a removal if it
was exported); otherwise the first (best) observation wins. -/
def resolveCore (ci : NMSKeyfileConnInfo) (masked : Bool)
    (lst : List ConnInfoStorageData) (n : Nat) : RecordStep :=
  if ci.storage_type_exported = some StorageType.mem then
    let ci := { ci with cisd_lst := clearSdConnections lst }
    let p := _conn_info_ensure_storage ci n
    { kept := some p.1, del_event := none, mod_event := none,
      next_handle := p.2 }
  else
    match lst with
    | [] =>
      { kept := none, del_event := delEventIf ci, mod_event := none,
        next_handle := n }
    | best :: rest =>
      if masked then
        let del := delEventIf ci
        let ci := { ci with
          connection_exported := none
          storage := none
          cisd_lst := clearSdConnections (best :: rest) }
        let p := _conn_info_ensure_storage ci n
        { kept := some p.1, del_event := del, mod_event := none,
          next_handle := p.2 }
      else
        let modified := winnerModified ci best
        let ci := { ci with storage_type_exported := some best.storage_type }
        let ci := if modified then
            { ci with connection_exported := best.connection }
          else ci
        let p := _conn_info_ensure_storage ci n
        let kept := { p.1 with cisd_lst := clearSdConnections (best :: rest) }
        { kept := some kept, del_event := none,
          mod_event := if modified then some ci.uuid else none,
          next_handle := p.2 }

/-- One full iteration of the per-record loop of `_do_reload_all`: steal
the hint, sort the observations by `_conn_info_storage_data_cmp`, apply
masking/pinning, then resolve. `none` when the prioritize loop hangs. -/
def resolveRecord (fs : Filesystem) (ci : NMSKeyfileConnInfo) (n : Nat) :
    Option RecordStep :=
  let hint := consolidateHint ci
  let ci' := { ci with loaded_path_run := none, loaded_path_etc := none }
  let sorted := sortObs ci.cisd_lst
  match applyHint fs sorted hint with
  | none => none
  | some (masked, lst) => some (resolveCore ci' masked lst n)

/-- The per-record loop of `_do_reload_all` over the whole record list
(iterating a snapshot, since resolution may delete entries): the surviving
records in order, the queued removal events, the queued modify uuids, and
the final handle counter. `none` when any record's resolution hangs. -/
def processInfos (fs : Filesystem) :
    List NMSKeyfileConnInfo → Nat →
    Option (List NMSKeyfileConnInfo × List (String × Option Nat) ×
            List String × Nat)
  | [], n => some ([], [], [], n)
  | ci :: rest, n =>
    match resolveRecord fs ci n with
    | none => none
    | some step =>
      match processInfos fs rest step.next_handle with
      | none => none
      | some (infos, dels, mods, n') =>
        some (step.kept.toList ++ infos, step.del_event.toList ++ dels,
              step.mod_event.toList ++ mods, n')

/-- The filename-index entries inserted by `prepare_post`: every surviving
record maps each of its observation paths back to its uuid. -/
def idxEntriesOf (infos : List NMSKeyfileConnInfo) :
    List (String × String) :=
  infos.foldr
    (fun ci acc =>
      ci.cisd_lst.map (fun sd => (sd.full_filename, ci.uuid)) ++ acc) []

/-- An emitted add/modify notification: uuid, opaque handle and payload. -/
structure ChangeEvent where
  uuid : String
  storage : Option Nat
  connection : NMConnection
deriving DecidableEq, Repr

/-- The `events_mod` emission loop of `_do_reload_all`: each queued uuid is
looked up again and emitted only when its record still exists and still has
an exported connection. -/
def emitChanges (infos : List NMSKeyfileConnInfo) (mods : List String) :
    List ChangeEvent :=
  mods.filterMap (fun uuid =>
    match _conn_infos_get infos uuid with
    | some ci =>
      match ci.connection_exported with
      | some c => some { uuid := uuid, storage := ci.storage, connection := c }
      | none => none
    | none => none)

/-- The result of a completed `_do_reload_all`: the new plugin state, the
emitted removal notifications (emitted first) and the emitted add/modify
notifications. -/
structure ReloadResult where
  state : PluginState
  removals : List (String × Option Nat)
  changes : List ChangeEvent
deriving DecidableEq, Repr

/-- `_do_reload_all`: scan all configured directories, resolve every
record, rebuild the filename index and emit the queued events. `none` when
the hint-prioritize loop does not terminate. -/
def _do_reload_all (fs : Filesystem) (st : PluginState) :
    Option ReloadResult :=
  let st1 := scanPhase fs st
  match processInfos fs st1.conn_infos st1.next_handle with
  | none => none
  | some (infos, dels, mods, n') =>
    some
      { state := { st1 with
          conn_infos := infos
          filename_idx := idxEntriesOf infos
          next_handle := n' }
        removals := dels
        changes := emitChanges infos mods }

/-- Reading one file for the single-file loader: the directory entry for
the classified (dirname, filename) pair must decode as a profile. -/
def Filesystem.readFileIn (fs : Filesystem) (dirname filename : String) :
    Option (NMConnection × FileStat) :=
  match fs.readDir dirname with
  | none => none
  | some entries =>
    match entries.find? (fun e => e.fst = filename) with
    | some (_, FileContent.profile c st) => some (c, st)
    | _ => none

/-- The result of a successful `_do_load_connection`: the new state, the
returned opaque handle (`none` models `g_object_ref (NULL)` when the
record has no storage object), the returned connection, the immediately
emitted change notification if any, and the loaded hint written to the run
directory (uuid, target path) — the write is attempted regardless of
change. -/
structure LoadOk where
  state : PluginState
  out_storage : Option Nat
  out_connection : NMConnection
  event : Option ChangeEvent
  hint_written : String × String
deriving DecidableEq, Repr

/-- The record the single-file loader operates on: the existing record for
the decoded uuid, or a fresh one (`_conn_infos_add` followed by lookup). -/
def loadPrior (st : PluginState) (u : String) : NMSKeyfileConnInfo :=
  match _conn_infos_get st.conn_infos u with
  | some ci => ci
  | none => _conn_info_new u

/-- The in-place update the single-file loader performs on the record of
the decoded uuid, together with the next handle counter: unconditionally
adopt the classified tier, run `_conn_info_ensure_storage` (faithful to the
source order, this happens BEFORE the modified branch assigns
`connection_exported`), then set the exported connection when the decoded
profile differs under the secret-ignoring comparison. -/
def loadRecord (st : PluginState) (storage_type : StorageType)
    (connection : NMConnection) : NMSKeyfileConnInfo × Nat :=
  let ci0 := loadPrior st connection.uuid
  let modified := !(_conn_info_has_equal_connection ci0 connection)
  let ci1 := { ci0 with storage_type_exported := some storage_type }
  let p := _conn_info_ensure_storage ci1 st.next_handle
  let ci3 := if modified then
      { p.1 with connection_exported := some connection }
    else p.1
  (ci3, p.2)

/-- `_do_load_connection`: classify the path, decode the file (failures are
surfaced to the caller with the state untouched), find or create the
record, update it via `loadRecord`, hand the (possibly still absent)
storage handle out, and on change emit the notification immediately. The
`connection_exported` assignment never touches the storage field, so the
handle returned (`out_storage`) is the one present after
`_conn_info_ensure_storage`. -/
def _do_load_connection (fs : Filesystem) (st : PluginState)
    (full_filename : String) : Except String LoadOk :=
  match _path_detect_storage_type full_filename st.dirname_libs
      st.dirname_etc st.dirname_run with
  | DetectResult.err m => Except.error m
  | DetectResult.ok storage_type dirname filename =>
    match fs.readFileIn dirname filename with
    | none => Except.error "failed to load connection"
    | some (connection, _) =>
      let existed := (_conn_infos_get st.conn_infos connection.uuid).isSome
      let modified := !(_conn_info_has_equal_connection
        (loadPrior st connection.uuid) connection)
      let pr := loadRecord st storage_type connection
      let ci3 := pr.1
      let infos' :=
        if existed then updateInfo st.conn_infos connection.uuid (fun _ => ci3)
        else st.conn_infos ++ [ci3]
      Except.ok
        { state := { st with conn_infos := infos', next_handle := pr.2 }
          out_storage := ci3.storage
          out_connection := connection
          event :=
            if modified then
              some { uuid := connection.uuid, storage := ci3.storage,
                     connection := connection }
            else none
          hint_written := (connection.uuid, full_filename) }

/-- The lexicographic sort key realised by `_conn_info_storage_data_cmp`:
priority ascending, mtime descending (negated), filename ascending. -/
def cisdKey (sd : ConnInfoStorageData) :
    Lex (Nat × Lex (Int × Lex (Int × String))) :=
  toLex (sd.storage_priority,
    toLex (-sd.stat_mtime_sec, toLex (-sd.stat_mtime_nsec, sd.filename)))


/-! ### Concrete sample inputs used by witnesses and counterexamples -/

/-- Sample profile payloads sharing uuid `u1`. -/
def connA : NMConnection :=
  { uuid := "u1", ident := "i", settings := "a",
    agentOwnedSecrets := "", notSavedSecrets := "" }

def connB : NMConnection :=
  { uuid := "u1", ident := "i", settings := "b",
    agentOwnedSecrets := "", notSavedSecrets := "" }

/-- Like `connA` but differing only in an agent-owned secret. -/
def connASecret : NMConnection :=
  { uuid := "u1", ident := "i", settings := "a",
    agentOwnedSecrets := "s3cr3t", notSavedSecrets := "" }

/-- An in-memory payload for uuid `u1`. -/
def connMem : NMConnection :=
  { uuid := "u1", ident := "i", settings := "m",
    agentOwnedSecrets := "", notSavedSecrets := "" }

def statA : FileStat := { mtimeSec := 10, mtimeNsec := 0, dev := 1, ino := 1 }

def statB : FileStat := { mtimeSec := 20, mtimeNsec := 0, dev := 1, ino := 2 }

/-- An empty plugin state configured with the run directory `/run/nm`. -/
def stEmpty : PluginState :=
  { dirname_libs := [], dirname_etc := none, dirname_run := some "/run/nm",
    conn_infos := [], filename_idx := [], next_handle := 0 }

/-- The completed reload result of a terminating reload (used to phrase
closed witness statements). -/
def reloadOut (fs : Filesystem) (st : PluginState) : ReloadResult :=
  (_do_reload_all fs st).getD { state := st, removals := [], changes := [] }

/-- A run directory holding one decodable profile for `u1`. -/
def fsC4 : Filesystem :=
  { dirs := [("/run/nm", [("a.nmconnection", FileContent.profile connA statA)])]
    stats := [] }

/-- A record for `u1` whose exported tier is the in-memory tier. -/
def ciMem : NMSKeyfileConnInfo :=
  { uuid := "u1", cisd_lst := [],
    storage_type_exported := some StorageType.mem,
    connection_exported := some connMem, storage := some 5,
    loaded_path_run := none, loaded_path_etc := none }

/-- The record of `u1` as it stands after the scan over `fsC4`: the
in-memory exported state plus the freshly collected observation. -/
def ciC4scan : NMSKeyfileConnInfo :=
  { ciMem with cisd_lst := [_conn_info_storage_data_new 0 StorageType.run
      "/run/nm/a.nmconnection" (some connA) statA] }

def stC4 : PluginState :=
  { dirname_libs := [], dirname_etc := none, dirname_run := some "/run/nm",
    conn_infos := [ciMem], filename_idx := [], next_handle := 6 }

/-- Inputs for the masking claim: the run directory holds a profile for
`u1` and a masking hint for `u1`. -/
def fsC3 : Filesystem :=
  { dirs := [("/run/nm",
      [("a.nmconnection", FileContent.profile connA statA),
       (".loaded-u1", FileContent.hintFile "u1"
          NM_KEYFILE_PATH_NMLOADED_NULL)])]
    stats := [] }

/-- The pre-existing record of `u1` before the masking reload. -/
def ciC3pre : NMSKeyfileConnInfo :=
  { uuid := "u1", cisd_lst := [],
    storage_type_exported := some StorageType.run,
    connection_exported := some connB, storage := some 7,
    loaded_path_run := none, loaded_path_etc := none }

def stC3 : PluginState :=
  { dirname_libs := [], dirname_etc := none, dirname_run := some "/run/nm",
    conn_infos := [ciC3pre],
    filename_idx := [], next_handle := 8 }

/-- The record for `u1` as it stands after the scan over `fsC3`. -/
def ciC3scan : NMSKeyfileConnInfo :=
  { uuid := "u1"
    cisd_lst := [_conn_info_storage_data_new 0 StorageType.run
      "/run/nm/a.nmconnection" (some connA) statA]
    storage_type_exported := some StorageType.run
    connection_exported := some connB
    storage := some 7
    loaded_path_run := some NM_KEYFILE_PATH_NMLOADED_NULL
    loaded_path_etc := none }

/-- The exported connection after the winner branch: the winner's payload,
except that a prior exported value equal to it under the secret-ignoring
comparison is kept untouched. -/
def expectedExported (bc prior : Option NMConnection) :
    Option NMConnection :=
  match bc, prior with
  | some c, some p =>
    if nm_connection_compare_ignore_secrets c p then some p else some c
  | bc, _ => bc

/-- Two profiles for `u1` in the run directory, the second newer. -/
def fsC1w : Filesystem :=
  { dirs := [("/run/nm",
      [("a.nmconnection", FileContent.profile connA statA),
       ("b.nmconnection", FileContent.profile connB statB)])]
    stats := [] }

/-- The record of `u1` after scanning `fsC1w` from the empty state. -/
def ciC1scan : NMSKeyfileConnInfo :=
  { uuid := "u1"
    cisd_lst := [_conn_info_storage_data_new 0 StorageType.run
        "/run/nm/a.nmconnection" (some connA) statA,
      _conn_info_storage_data_new 0 StorageType.run
        "/run/nm/b.nmconnection" (some connB) statB]
    storage_type_exported := none
    connection_exported := none
    storage := none
    loaded_path_run := none
    loaded_path_etc := none }

/-- A record of `u1` already exporting `connA` from the run tier. -/
def ciC1pre : NMSKeyfileConnInfo :=
  { uuid := "u1", cisd_lst := [],
    storage_type_exported := some StorageType.run,
    connection_exported := some connA, storage := some 3,
    loaded_path_run := none, loaded_path_etc := none }

def stC1s : PluginState :=
  { dirname_libs := [], dirname_etc := none, dirname_run := some "/run/nm",
    conn_infos := [ciC1pre], filename_idx := [], next_handle := 4 }

/-- The run directory now holds a profile differing from the exported one
only in an agent-owned secret. -/
def fsC1s : Filesystem :=
  { dirs := [("/run/nm",
      [("a.nmconnection", FileContent.profile connASecret statA)])]
    stats := [] }

/-- The record of `u1` after scanning `fsC1s` from `stC1s`. -/
def ciC1sScan : NMSKeyfileConnInfo :=
  { ciC1pre with cisd_lst := [_conn_info_storage_data_new 0 StorageType.run
      "/run/nm/a.nmconnection" (some connASecret) statA] }

/-- The successful result of loading `/run/nm/a.nmconnection` from the
empty state (with an inert fallback so that the definition is total). -/
def loadOutC6 : LoadOk :=
  match _do_load_connection fsC1w stEmpty "/run/nm/a.nmconnection" with
  | Except.ok ok => ok
  | Except.error _ =>
    { state := stEmpty, out_storage := none, out_connection := connA,
      event := none, hint_written := ("", "") }

/-- The two observations of `u1` as sorted by the reload: the newer file
first. The loaded hint of `fsC2` targets the older file `a.nmconnection`. -/
def sdC2b : ConnInfoStorageData :=
  _conn_info_storage_data_new 0 StorageType.run "/run/nm/b.nmconnection"
    (some connB) statB

def sdC2a : ConnInfoStorageData :=
  _conn_info_storage_data_new 0 StorageType.run "/run/nm/a.nmconnection"
    (some connA) statA

def cisdC2 : List ConnInfoStorageData := [sdC2b, sdC2a]

/-- Run directory with two profiles for `u1` and a loaded hint pinning the
older one; the stat of the hint target resolves to `statA`. -/
def fsC2 : Filesystem :=
  { dirs := [("/run/nm",
      [("a.nmconnection", FileContent.profile connA statA),
       ("b.nmconnection", FileContent.profile connB statB),
       (".loaded-u1", FileContent.hintFile "u1"
          "/run/nm/a.nmconnection")])]
    stats := [("/run/nm/a.nmconnection", statA)] }

/-- Modelled from the spec's words (for the refinement claim about the
classifier): the first configured directory containing the path, checking
the volatile (run) directory first, then the persistent (etc) directory,
then the read-only directories in configuration order. -/
def classifierFirstMatchSpec (full : String) (dirname_libs : List String)
    (dirname_etc dirname_run : Option String) :
    Option (StorageType × String × String) :=
  match dirname_run.bind
      (fun dr => (nm_utils_file_is_in_path full dr).map
        (fun fn => (dr, fn))) with
  | some (d, fn) => some (StorageType.run, d, fn)
  | none =>
    match dirname_etc.bind
        (fun de => (nm_utils_file_is_in_path full de).map
          (fun fn => (de, fn))) with
    | some (d, fn) => some (StorageType.etc, d, fn)
    | none =>
      (detectInLibs full dirname_libs).map
        (fun p => (StorageType.lib, p.1, p.2))

/-- A directory entry that fails to decode. -/
def itBadC9 : ScanItem :=
  { storage_priority := 0, storage_type := StorageType.run,
    dirname := "/run/nm", filename := "bad.nmconnection",
    content := FileContent.badProfile }

/-- A run directory whose only profile file fails to decode. -/
def fsBadC9 : Filesystem :=
  { dirs := [("/run/nm", [("a.nmconnection", FileContent.badProfile)])]
    stats := [] }

/-- The observation one scan item contributes for a given uuid. -/
def profile1 (it : ScanItem) (u : String) : List ConnInfoStorageData :=
  match itemAction it with
  | ItemAction.obs u' sd => if u' = u then [sd] else []
  | _ => []

/-- The run-tier hint one scan item contributes for a given uuid. -/
def hintRun1 (it : ScanItem) (u : String) : Option String :=
  match itemAction it with
  | ItemAction.hintRun u' t => if u' = u then some t else none
  | _ => none

/-- The etc-tier hint one scan item contributes for a given uuid. -/
def hintEtc1 (it : ScanItem) (u : String) : Option String :=
  match itemAction it with
  | ItemAction.hintEtc u' t => if u' = u then some t else none
  | _ => none

/-- All observations a stream of scan items contributes for a uuid, in
stream order. -/
def profilesOfItems : List ScanItem → String → List ConnInfoStorageData
  | [], _ => []
  | it :: its, u => profile1 it u ++ profilesOfItems its u

/-- The last run-tier hint of the stream for a uuid (later items
overwrite earlier ones). -/
def lastHintRun : List ScanItem → String → Option String
  | [], _ => none
  | it :: its, u =>
    match lastHintRun its u with
    | some t => some t
    | none => hintRun1 it u

/-- The last etc-tier hint of the stream for a uuid. -/
def lastHintEtc : List ScanItem → String → Option String
  | [], _ => none
  | it :: its, u =>
    match lastHintEtc its u with
    | some t => some t
    | none => hintEtc1 it u

/-- A hint contribution overwrites the field when present. -/
def overwriteHint (h old : Option String) : Option String :=
  match h with
  | some t => some t
  | none => old

/-- Both transient loaded-hint fields of every record are clear — the
steady state between operations, established by every completed reload. -/
def HintsClear (infos : List NMSKeyfileConnInfo) : Prop :=
  ∀ ci ∈ infos, ci.loaded_path_run = none ∧ ci.loaded_path_etc = none

/-! ### Order lemmas for the observation comparator -/

theorem then_cmpVia_ne_gt {α : Type} [LinearOrder α] (a b : α)
    (rest : Ordering) :
    ((cmpVia a b).then rest ≠ Ordering.gt) ↔
      (a < b ∨ (a = b ∧ rest ≠ Ordering.gt)) := by
  unfold cmpVia
  rcases lt_trichotomy a b with h | h | h
  · simp [h, Ordering.then, not_lt_of_gt h]
  · simp [h, lt_irrefl, Ordering.then]
  · simp [h, not_lt_of_gt h, Ordering.then, ne_of_gt h]

theorem cmpVia_ne_gt {α : Type} [LinearOrder α] (a b : α) :
    (cmpVia a b ≠ Ordering.gt) ↔ a ≤ b := by
  unfold cmpVia
  rcases lt_trichotomy a b with h | h | h
  · simp [h, le_of_lt h, not_lt_of_gt h]
  · simp [h, lt_irrefl]
  · simp [h, not_lt_of_gt h, not_le_of_gt h]

theorem cisdLE_eq_true_iff_ne_gt (a b : ConnInfoStorageData) :
    cisdLE a b = true ↔ _conn_info_storage_data_cmp a b ≠ Ordering.gt := by
  unfold cisdLE
  cases _conn_info_storage_data_cmp a b <;> simp

theorem cisdLE_iff_key (a b : ConnInfoStorageData) :
    cisdLE a b = true ↔ cisdKey a ≤ cisdKey b := by
  rw [cisdLE_eq_true_iff_ne_gt]
  unfold _conn_info_storage_data_cmp cisdKey
  rw [then_cmpVia_ne_gt, then_cmpVia_ne_gt, then_cmpVia_ne_gt, cmpVia_ne_gt]
  rw [Prod.Lex.le_iff, Prod.Lex.le_iff, Prod.Lex.le_iff]
  simp only [Prod.fst, Prod.snd]
  constructor
  · rintro (h | ⟨h1, (h | ⟨h2, (h | ⟨h3, h4⟩)⟩)⟩)
    · exact Or.inl h
    · exact Or.inr ⟨h1, Or.inl (by omega)⟩
    · exact Or.inr ⟨h1, Or.inr ⟨by omega, Or.inl (by omega)⟩⟩
    · exact Or.inr ⟨h1, Or.inr ⟨by omega, Or.inr ⟨by omega, h4⟩⟩⟩
  · rintro (h | ⟨h1, (h | ⟨h2, (h | ⟨h3, h4⟩)⟩)⟩)
    · exact Or.inl h
    · exact Or.inr ⟨h1, Or.inl (by omega)⟩
    · exact Or.inr ⟨h1, Or.inr ⟨by omega, Or.inl (by omega)⟩⟩
    · exact Or.inr ⟨h1, Or.inr ⟨by omega, Or.inr ⟨by omega, h4⟩⟩⟩

theorem cisdLE_refl (a : ConnInfoStorageData) : cisdLE a a = true := by
  rw [cisdLE_iff_key]

theorem cisdLE_total (a b : ConnInfoStorageData) :
    (cisdLE a b || cisdLE b a) = true := by
  rcases le_total (cisdKey a) (cisdKey b) with h | h
  · simp [(cisdLE_iff_key a b).mpr h]
  · simp [(cisdLE_iff_key b a).mpr h]

theorem cisdLE_trans {a b c : ConnInfoStorageData}
    (hab : cisdLE a b = true) (hbc : cisdLE b c = true) :
    cisdLE a c = true := by
  rw [cisdLE_iff_key] at hab hbc ⊢
  exact le_trans hab hbc

/-- The sorted observation list is a permutation of the input. -/
theorem sortObs_perm (xs : List ConnInfoStorageData) :
    List.Perm (sortObs xs) xs :=
  List.perm_insertionSort _ xs

/-- The sorted observation list is pairwise ordered by `cisdLE`. -/
theorem sortObs_sorted (xs : List ConnInfoStorageData) :
    List.Pairwise (fun a b => cisdLE a b = true) (sortObs xs) := by
  exact @List.sorted_insertionSort ConnInfoStorageData
    (fun a b => cisdLE a b = true)
    (fun a b => instDecidableEqBool (cisdLE a b) true)
    ⟨fun a b => by
      rcases Bool.or_eq_true_iff.mp (cisdLE_total a b) with h | h
      · exact Or.inl h
      · exact Or.inr h⟩
    ⟨fun a b c hab hbc => cisdLE_trans hab hbc⟩
    xs

/-- The head of the sorted observation list is minimal among the members of
the original list, with respect to the composite order. -/
theorem sortObs_head_minimal {xs t : List ConnInfoStorageData}
    {best : ConnInfoStorageData}
    (h : sortObs xs = best :: t) :
    ∀ x ∈ xs, cisdLE best x = true := by
  intro x hx
  have hx' : x ∈ sortObs xs := (sortObs_perm xs).mem_iff.mpr hx
  rw [h] at hx'
  rcases List.mem_cons.mp hx' with rfl | hxt
  · exact cisdLE_refl x
  · have hs := sortObs_sorted xs
    rw [h] at hs
    exact (List.pairwise_cons.mp hs).1 x hxt

/-! ### Elementary lemmas about the resolver building blocks -/

theorem ensure_storage_uuid (ci : NMSKeyfileConnInfo) (n : Nat) :
    (_conn_info_ensure_storage ci n).1.uuid = ci.uuid := by
  unfold _conn_info_ensure_storage; split <;> rfl

theorem ensure_storage_connection (ci : NMSKeyfileConnInfo) (n : Nat) :
    (_conn_info_ensure_storage ci n).1.connection_exported =
      ci.connection_exported := by
  unfold _conn_info_ensure_storage; split <;> rfl

theorem ensure_storage_type (ci : NMSKeyfileConnInfo) (n : Nat) :
    (_conn_info_ensure_storage ci n).1.storage_type_exported =
      ci.storage_type_exported := by
  unfold _conn_info_ensure_storage; split <;> rfl

theorem ensure_storage_cisd (ci : NMSKeyfileConnInfo) (n : Nat) :
    (_conn_info_ensure_storage ci n).1.cisd_lst = ci.cisd_lst := by
  unfold _conn_info_ensure_storage; split <;> rfl

theorem ensure_storage_run (ci : NMSKeyfileConnInfo) (n : Nat) :
    (_conn_info_ensure_storage ci n).1.loaded_path_run =
      ci.loaded_path_run := by
  unfold _conn_info_ensure_storage; split <;> rfl

theorem ensure_storage_etc (ci : NMSKeyfileConnInfo) (n : Nat) :
    (_conn_info_ensure_storage ci n).1.loaded_path_etc =
      ci.loaded_path_etc := by
  unfold _conn_info_ensure_storage; split <;> rfl

theorem ensure_storage_none (ci : NMSKeyfileConnInfo) (n : Nat)
    (h : ci.connection_exported = none) :
    _conn_info_ensure_storage ci n = (ci, n) := by
  unfold _conn_info_ensure_storage
  simp [h]

theorem prioritize_loaded_list_id {fs : Filesystem}
    {cisd lst : List ConnInfoStorageData} {p : String} {b : Bool}
    (h : _conn_info_storage_data_prioritize_loaded fs cisd p =
      some (b, lst)) : lst = cisd := by
  unfold _conn_info_storage_data_prioritize_loaded at h
  split at h
  · exact (Prod.mk.injEq _ _ _ _ ▸ (Option.some.injEq _ _ ▸ h)).2.symm ▸ rfl
  · split at h
    · cases h; rfl
    · split at h
      · cases h; rfl
      · split at h
        · cases h; rfl
        · cases h

theorem applyHint_list_id {fs : Filesystem}
    {sorted lst : List ConnInfoStorageData} {h? : Option String}
    {m : Bool} (h : applyHint fs sorted h? = some (m, lst)) :
    lst = sorted := by
  unfold applyHint at h
  match h? with
  | none => cases h; rfl
  | some p =>
    simp only at h
    split at h
    · cases h; rfl
    · split at h
      · cases h
      · rename_i heq
        cases h
        exact prioritize_loaded_list_id heq

/-- A record step taken by `resolveRecord` decomposes into the hint
application on the sorted list followed by `resolveCore` on the record with
its hint fields stolen. -/
theorem resolveRecord_eq {fs : Filesystem} {ci : NMSKeyfileConnInfo}
    {n : Nat} {step : RecordStep}
    (h : resolveRecord fs ci n = some step) :
    ∃ masked,
      applyHint fs (sortObs ci.cisd_lst) (consolidateHint ci) =
        some (masked, sortObs ci.cisd_lst) ∧
      step = resolveCore
        { ci with loaded_path_run := none, loaded_path_etc := none }
        masked (sortObs ci.cisd_lst) n := by
  unfold resolveRecord at h
  simp only at h
  split at h
  · cases h
  · rename_i masked lst heq
    have hl : lst = sortObs ci.cisd_lst := applyHint_list_id heq
    subst hl
    cases h
    exact ⟨masked, heq, rfl⟩

/-- All three outputs of `resolveCore` carry the input record's uuid. -/
theorem resolveCore_uuids (ci : NMSKeyfileConnInfo) (masked : Bool)
    (lst : List ConnInfoStorageData) (n : Nat) :
    (∀ k, (resolveCore ci masked lst n).kept = some k → k.uuid = ci.uuid) ∧
    (∀ e, (resolveCore ci masked lst n).del_event = some e →
      e.1 = ci.uuid) ∧
    (∀ u, (resolveCore ci masked lst n).mod_event = some u →
      u = ci.uuid) := by
  unfold resolveCore
  split
  · refine ⟨?_, ?_, ?_⟩
    · intro k hk
      simp only at hk
      cases hk
      exact ensure_storage_uuid _ _
    · intro e he; simp at he
    · intro u hu; simp at hu
  · split
    · refine ⟨?_, ?_, ?_⟩
      · intro k hk; simp at hk
      · intro e he
        simp only [delEventIf] at he
        split at he
        · cases he; rfl
        · cases he
      · intro u hu; simp at hu
    · split
      · refine ⟨?_, ?_, ?_⟩
        · intro k hk
          simp only at hk
          cases hk
          exact ensure_storage_uuid _ _
        · intro e he
          simp only [delEventIf] at he
          split at he
          · cases he; rfl
          · cases he
        · intro u hu; simp at hu
      · refine ⟨?_, ?_, ?_⟩
        · intro k hk
          simp only at hk
          cases hk
          simp only [ensure_storage_uuid]
          split <;> rfl
        · intro e he; simp at he
        · intro u hu
          simp only at hu
          split at hu
          · cases hu
            rfl
          · cases hu

theorem resolveRecord_kept_uuid {fs : Filesystem} {ci : NMSKeyfileConnInfo}
    {n : Nat} {step : RecordStep} {k : NMSKeyfileConnInfo}
    (h : resolveRecord fs ci n = some step) (hk : step.kept = some k) :
    k.uuid = ci.uuid := by
  obtain ⟨masked, -, hstep⟩ := resolveRecord_eq h
  subst hstep
  exact (resolveCore_uuids
    { ci with loaded_path_run := none, loaded_path_etc := none }
    masked (sortObs ci.cisd_lst) n).1 k hk

theorem resolveRecord_del_uuid {fs : Filesystem} {ci : NMSKeyfileConnInfo}
    {n : Nat} {step : RecordStep} {e : String × Option Nat}
    (h : resolveRecord fs ci n = some step)
    (he : step.del_event = some e) : e.1 = ci.uuid := by
  obtain ⟨masked, -, hstep⟩ := resolveRecord_eq h
  subst hstep
  exact (resolveCore_uuids
    { ci with loaded_path_run := none, loaded_path_etc := none }
    masked (sortObs ci.cisd_lst) n).2.1 e he

theorem resolveRecord_mod_uuid {fs : Filesystem} {ci : NMSKeyfileConnInfo}
    {n : Nat} {step : RecordStep} {u : String}
    (h : resolveRecord fs ci n = some step)
    (hu : step.mod_event = some u) : u = ci.uuid := by
  obtain ⟨masked, -, hstep⟩ := resolveRecord_eq h
  subst hstep
  exact (resolveCore_uuids
    { ci with loaded_path_run := none, loaded_path_etc := none }
    masked (sortObs ci.cisd_lst) n).2.2 u hu

/-! ### Provenance lemmas for the per-record loop -/

theorem processInfos_mem (fs : Filesystem) :
    ∀ (L : List NMSKeyfileConnInfo) (n : Nat)
      (infos : List NMSKeyfileConnInfo) (dels : List (String × Option Nat))
      (mods : List String) (n' : Nat),
      processInfos fs L n = some (infos, dels, mods, n') →
      ∀ ci ∈ L, ∃ m step, resolveRecord fs ci m = some step ∧
        (∀ k, step.kept = some k → k ∈ infos) ∧
        (∀ e, step.del_event = some e → e ∈ dels) ∧
        (∀ u, step.mod_event = some u → u ∈ mods) := by
  intro L
  induction L with
  | nil =>
    intro n infos dels mods n' h ci hci
    simp at hci
  | cons hd tl ih =>
    intro n infos dels mods n' h ci hci
    unfold processInfos at h
    cases hres : resolveRecord fs hd n with
    | none => rw [hres] at h; cases h
    | some step =>
      rw [hres] at h
      simp only at h
      cases hrest : processInfos fs tl step.next_handle with
      | none => rw [hrest] at h; cases h
      | some out =>
        obtain ⟨infos1, dels1, mods1, n1⟩ := out
        rw [hrest] at h
        simp only at h
        cases h
        rcases List.mem_cons.mp hci with rfl | hci'
        · refine ⟨n, step, hres, ?_, ?_, ?_⟩
          · intro k hk; simp [hk]
          · intro e he; simp [he]
          · intro u hu; simp [hu]
        · obtain ⟨m, st2, hres2, h1, h2, h3⟩ :=
            ih _ _ _ _ _ hrest ci hci'
          refine ⟨m, st2, hres2, ?_, ?_, ?_⟩
          · intro k hk; exact List.mem_append_right _ (h1 k hk)
          · intro e he; exact List.mem_append_right _ (h2 e he)
          · intro u hu; exact List.mem_append_right _ (h3 u hu)

theorem processInfos_kept_src (fs : Filesystem) :
    ∀ (L : List NMSKeyfileConnInfo) (n : Nat)
      (infos : List NMSKeyfileConnInfo) (dels : List (String × Option Nat))
      (mods : List String) (n' : Nat),
      processInfos fs L n = some (infos, dels, mods, n') →
      ∀ ci' ∈ infos, ∃ ci ∈ L, ∃ m step,
        resolveRecord fs ci m = some step ∧ step.kept = some ci' := by
  intro L
  induction L with
  | nil =>
    intro n infos dels mods n' h ci' hci'
    unfold processInfos at h
    cases h
    simp at hci'
  | cons hd tl ih =>
    intro n infos dels mods n' h ci' hci'
    unfold processInfos at h
    cases hres : resolveRecord fs hd n with
    | none => rw [hres] at h; cases h
    | some step =>
      rw [hres] at h
      simp only at h
      cases hrest : processInfos fs tl step.next_handle with
      | none => rw [hrest] at h; cases h
      | some out =>
        obtain ⟨infos1, dels1, mods1, n1⟩ := out
        rw [hrest] at h
        simp only at h
        cases h
        rcases List.mem_append.mp hci' with hl | hr
        · refine ⟨hd, List.mem_cons_self _ _, n, step, hres, ?_⟩
          cases hkept : step.kept with
          | none => rw [hkept] at hl; simp at hl
          | some k =>
            rw [hkept] at hl
            simp at hl
            rw [hl]
        · obtain ⟨ci, hci, m, st2, hres2, hk⟩ :=
            ih _ _ _ _ _ hrest ci' hr
          exact ⟨ci, List.mem_cons_of_mem _ hci, m, st2, hres2, hk⟩

theorem processInfos_del_src (fs : Filesystem) :
    ∀ (L : List NMSKeyfileConnInfo) (n : Nat)
      (infos : List NMSKeyfileConnInfo) (dels : List (String × Option Nat))
      (mods : List String) (n' : Nat),
      processInfos fs L n = some (infos, dels, mods, n') →
      ∀ e ∈ dels, ∃ ci ∈ L, ∃ m step,
        resolveRecord fs ci m = some step ∧ step.del_event = some e := by
  intro L
  induction L with
  | nil =>
    intro n infos dels mods n' h e he
    unfold processInfos at h
    cases h
    simp at he
  | cons hd tl ih =>
    intro n infos dels mods n' h e he
    unfold processInfos at h
    cases hres : resolveRecord fs hd n with
    | none => rw [hres] at h; cases h
    | some step =>
      rw [hres] at h
      simp only at h
      cases hrest : processInfos fs tl step.next_handle with
      | none => rw [hrest] at h; cases h
      | some out =>
        obtain ⟨infos1, dels1, mods1, n1⟩ := out
        rw [hrest] at h
        simp only at h
        cases h
        rcases List.mem_append.mp he with hl | hr
        · refine ⟨hd, List.mem_cons_self _ _, n, step, hres, ?_⟩
          cases hdel : step.del_event with
          | none => rw [hdel] at hl; simp at hl
          | some e0 =>
            rw [hdel] at hl
            simp at hl
            rw [hl]
        · obtain ⟨ci, hci, m, st2, hres2, hk⟩ :=
            ih _ _ _ _ _ hrest e hr
          exact ⟨ci, List.mem_cons_of_mem _ hci, m, st2, hres2, hk⟩

theorem processInfos_mod_src (fs : Filesystem) :
    ∀ (L : List NMSKeyfileConnInfo) (n : Nat)
      (infos : List NMSKeyfileConnInfo) (dels : List (String × Option Nat))
      (mods : List String) (n' : Nat),
      processInfos fs L n = some (infos, dels, mods, n') →
      ∀ u ∈ mods, ∃ ci ∈ L, ∃ m step,
        resolveRecord fs ci m = some step ∧ step.mod_event = some u := by
  intro L
  induction L with
  | nil =>
    intro n infos dels mods n' h u hu
    unfold processInfos at h
    cases h
    simp at hu
  | cons hd tl ih =>
    intro n infos dels mods n' h u hu
    unfold processInfos at h
    cases hres : resolveRecord fs hd n with
    | none => rw [hres] at h; cases h
    | some step =>
      rw [hres] at h
      simp only at h
      cases hrest : processInfos fs tl step.next_handle with
      | none => rw [hrest] at h; cases h
      | some out =>
        obtain ⟨infos1, dels1, mods1, n1⟩ := out
        rw [hrest] at h
        simp only at h
        cases h
        rcases List.mem_append.mp hu with hl | hr
        · refine ⟨hd, List.mem_cons_self _ _, n, step, hres, ?_⟩
          cases hmod : step.mod_event with
          | none => rw [hmod] at hl; simp at hl
          | some u0 =>
            rw [hmod] at hl
            simp at hl
            rw [hl]
        · obtain ⟨ci, hci, m, st2, hres2, hk⟩ :=
            ih _ _ _ _ _ hrest u hr
          exact ⟨ci, List.mem_cons_of_mem _ hci, m, st2, hres2, hk⟩

theorem processInfos_uuid_sublist (fs : Filesystem) :
    ∀ (L : List NMSKeyfileConnInfo) (n : Nat)
      (infos : List NMSKeyfileConnInfo) (dels : List (String × Option Nat))
      (mods : List String) (n' : Nat),
      processInfos fs L n = some (infos, dels, mods, n') →
      (infos.map (fun ci => ci.uuid)).Sublist
        (L.map (fun ci => ci.uuid)) := by
  intro L
  induction L with
  | nil =>
    intro n infos dels mods n' h
    unfold processInfos at h
    cases h
    simp
  | cons hd tl ih =>
    intro n infos dels mods n' h
    unfold processInfos at h
    cases hres : resolveRecord fs hd n with
    | none => rw [hres] at h; cases h
    | some step =>
      rw [hres] at h
      simp only at h
      cases hrest : processInfos fs tl step.next_handle with
      | none => rw [hrest] at h; cases h
      | some out =>
        obtain ⟨infos1, dels1, mods1, n1⟩ := out
        rw [hrest] at h
        simp only at h
        cases h
        have hsub := ih _ _ _ _ _ hrest
        cases hkept : step.kept with
        | none =>
          simp only [hkept, Option.toList, List.nil_append]
          exact hsub.trans (List.sublist_cons_self _ _)
        | some k =>
          have hu : k.uuid = hd.uuid := resolveRecord_kept_uuid hres hkept
          simp only [hkept, Option.toList, List.singleton_append,
            List.map_cons, hu]
          exact List.Sublist.cons₂ _ hsub

/-! ### Branch behaviour of the resolver -/

theorem resolveCore_mem_spec (ci : NMSKeyfileConnInfo) (masked : Bool)
    (lst : List ConnInfoStorageData) (n : Nat)
    (h : ci.storage_type_exported = some StorageType.mem) :
    ∃ k, (resolveCore ci masked lst n).kept = some k ∧
      k.uuid = ci.uuid ∧
      k.connection_exported = ci.connection_exported ∧
      k.storage_type_exported = ci.storage_type_exported ∧
      (resolveCore ci masked lst n).del_event = none ∧
      (resolveCore ci masked lst n).mod_event = none := by
  unfold resolveCore
  rw [if_pos h]
  exact ⟨_, rfl, ensure_storage_uuid _ _, ensure_storage_connection _ _,
    ensure_storage_type _ _, rfl, rfl⟩

theorem resolveCore_empty_spec (ci : NMSKeyfileConnInfo) (masked : Bool)
    (n : Nat) (h : ci.storage_type_exported ≠ some StorageType.mem) :
    resolveCore ci masked [] n =
      { kept := none, del_event := delEventIf ci, mod_event := none,
        next_handle := n } := by
  unfold resolveCore
  rw [if_neg h]

theorem resolveCore_masked_spec (ci : NMSKeyfileConnInfo)
    (best : ConnInfoStorageData) (rest : List ConnInfoStorageData) (n : Nat)
    (h : ci.storage_type_exported ≠ some StorageType.mem) :
    ∃ k, (resolveCore ci true (best :: rest) n).kept = some k ∧
      k.uuid = ci.uuid ∧
      k.connection_exported = none ∧
      k.storage = none ∧
      k.storage_type_exported = ci.storage_type_exported ∧
      (resolveCore ci true (best :: rest) n).del_event = delEventIf ci ∧
      (resolveCore ci true (best :: rest) n).mod_event = none := by
  unfold resolveCore
  rw [if_neg h]
  simp only [if_pos rfl]
  rw [ensure_storage_none _ _ rfl]
  exact ⟨_, rfl, rfl, rfl, rfl, rfl, rfl, rfl⟩

theorem resolveCore_winner_spec (ci : NMSKeyfileConnInfo)
    (best : ConnInfoStorageData) (rest : List ConnInfoStorageData) (n : Nat)
    (h : ci.storage_type_exported ≠ some StorageType.mem) :
    ∃ k, (resolveCore ci false (best :: rest) n).kept = some k ∧
      k.uuid = ci.uuid ∧
      k.storage_type_exported = some best.storage_type ∧
      k.connection_exported =
        (if winnerModified ci best then best.connection
         else ci.connection_exported) ∧
      k.cisd_lst = clearSdConnections (best :: rest) ∧
      (resolveCore ci false (best :: rest) n).del_event = none ∧
      (resolveCore ci false (best :: rest) n).mod_event =
        (if winnerModified ci best then some ci.uuid else none) := by
  unfold resolveCore
  rw [if_neg h]
  simp only [Bool.false_eq_true, if_false]
  refine ⟨_, rfl, ?_, ?_, ?_, ?_, ?_, ?_⟩ <;>
    first
    | trivial
    | (split <;> rfl)
    | (simp only [ensure_storage_uuid, ensure_storage_type,
        ensure_storage_connection]
       first
       | rfl
       | (split <;> rfl))

theorem resolveCore_kept_nonempty (ci : NMSKeyfileConnInfo) (masked : Bool)
    (best : ConnInfoStorageData) (rest : List ConnInfoStorageData)
    (n : Nat) :
    ∃ k, (resolveCore ci masked (best :: rest) n).kept = some k := by
  by_cases h : ci.storage_type_exported = some StorageType.mem
  · obtain ⟨k, hk, -⟩ := resolveCore_mem_spec ci masked (best :: rest) n h
    exact ⟨k, hk⟩
  · cases masked with
    | true =>
      obtain ⟨k, hk, -⟩ := resolveCore_masked_spec ci best rest n h
      exact ⟨k, hk⟩
    | false =>
      obtain ⟨k, hk, -⟩ := resolveCore_winner_spec ci best rest n h
      exact ⟨k, hk⟩

theorem resolveCore_kept_hints (ci : NMSKeyfileConnInfo) (masked : Bool)
    (lst : List ConnInfoStorageData) (n : Nat) (k : NMSKeyfileConnInfo)
    (hk : (resolveCore ci masked lst n).kept = some k) :
    k.loaded_path_run = ci.loaded_path_run ∧
    k.loaded_path_etc = ci.loaded_path_etc := by
  unfold resolveCore at hk
  split at hk
  · simp only at hk
    cases hk
    exact ⟨ensure_storage_run _ _, ensure_storage_etc _ _⟩
  · split at hk
    · cases hk
    · split at hk
      · simp only at hk
        cases hk
        exact ⟨ensure_storage_run _ _, ensure_storage_etc _ _⟩
      · simp only at hk
        cases hk
        constructor
        · simp only [ensure_storage_run]
          split <;> rfl
        · simp only [ensure_storage_etc]
          split <;> rfl

/-- Every record a completed `resolveRecord` keeps has both transient hint
fields cleared. -/
theorem resolveRecord_kept_hints {fs : Filesystem}
    {ci : NMSKeyfileConnInfo} {n : Nat} {step : RecordStep}
    {k : NMSKeyfileConnInfo} (h : resolveRecord fs ci n = some step)
    (hk : step.kept = some k) :
    k.loaded_path_run = none ∧ k.loaded_path_etc = none := by
  obtain ⟨masked, -, hstep⟩ := resolveRecord_eq h
  subst hstep
  exact resolveCore_kept_hints _ _ _ _ _ hk

/-! ### Uuid bookkeeping of the scan -/

theorem updateInfo_map_uuid (l : List NMSKeyfileConnInfo) (u : String)
    (f : NMSKeyfileConnInfo → NMSKeyfileConnInfo)
    (hf : ∀ ci, (f ci).uuid = ci.uuid) :
    (updateInfo l u f).map (fun ci => ci.uuid) =
      l.map (fun ci => ci.uuid) := by
  induction l with
  | nil => rfl
  | cons hd tl ih =>
    unfold updateInfo
    by_cases h : hd.uuid = u
    · simp [h, hf]
    · simp [h, ih]

theorem conn_infos_get_isSome_iff (l : List NMSKeyfileConnInfo)
    (u : String) :
    (_conn_infos_get l u).isSome = true ↔
      u ∈ l.map (fun ci => ci.uuid) := by
  induction l with
  | nil => simp [_conn_infos_get]
  | cons hd tl ih =>
    unfold _conn_infos_get
    by_cases h : hd.uuid = u
    · simp [List.find?_cons, h]
    · rw [List.find?_cons]
      simp only [h, decide_False]
      unfold _conn_infos_get at ih
      simp only [Bool.false_eq_true, if_false, List.map_cons,
        List.mem_cons, ih]
      constructor
      · intro hmem2; exact Or.inr hmem2
      · rintro (heq | hmem2)
        · exact absurd heq.symm h
        · exact hmem2

theorem conn_infos_add_map_uuid (l : List NMSKeyfileConnInfo)
    (u : String) :
    (_conn_infos_add l u).map (fun ci => ci.uuid) =
      (if (_conn_infos_get l u).isSome then l.map (fun ci => ci.uuid)
       else l.map (fun ci => ci.uuid) ++ [u]) := by
  unfold _conn_infos_add
  split <;> simp_all [_conn_info_new]

theorem scanStep_map_uuid (infos : List NMSKeyfileConnInfo)
    (it : ScanItem) :
    (scanStep infos it).map (fun ci => ci.uuid) =
      infos.map (fun ci => ci.uuid) ∨
    ∃ u, u ∉ infos.map (fun ci => ci.uuid) ∧
      (scanStep infos it).map (fun ci => ci.uuid) =
        infos.map (fun ci => ci.uuid) ++ [u] := by
  rcases hact : itemAction it with _ | ⟨u, sd⟩ | ⟨u, t⟩ | ⟨u, t⟩
  · exact Or.inl (by unfold scanStep; rw [hact])
  · have hstep : scanStep infos it =
        updateInfo (_conn_infos_add infos u) u
          (fun ci => { ci with cisd_lst := ci.cisd_lst ++ [sd] }) := by
      unfold scanStep
      rw [hact]
    rw [hstep, updateInfo_map_uuid (_conn_infos_add infos u) u
      (fun ci => { ci with cisd_lst := ci.cisd_lst ++ [sd] }) (fun ci => rfl),
      conn_infos_add_map_uuid]
    by_cases h : (_conn_infos_get infos u).isSome
    · exact Or.inl (by rw [if_pos h])
    · refine Or.inr ⟨u, ?_, by rw [if_neg h]⟩
      intro hmem2
      exact h ((conn_infos_get_isSome_iff infos u).mpr hmem2)
  · have hstep : scanStep infos it =
        updateInfo (_conn_infos_add infos u) u
          (fun ci => { ci with loaded_path_run := some t }) := by
      unfold scanStep
      rw [hact]
    rw [hstep, updateInfo_map_uuid (_conn_infos_add infos u) u
      (fun ci => { ci with loaded_path_run := some t }) (fun ci => rfl),
      conn_infos_add_map_uuid]
    by_cases h : (_conn_infos_get infos u).isSome
    · exact Or.inl (by rw [if_pos h])
    · refine Or.inr ⟨u, ?_, by rw [if_neg h]⟩
      intro hmem2
      exact h ((conn_infos_get_isSome_iff infos u).mpr hmem2)
  · have hstep : scanStep infos it =
        updateInfo (_conn_infos_add infos u) u
          (fun ci => { ci with loaded_path_etc := some t }) := by
      unfold scanStep
      rw [hact]
    rw [hstep, updateInfo_map_uuid (_conn_infos_add infos u) u
      (fun ci => { ci with loaded_path_etc := some t }) (fun ci => rfl),
      conn_infos_add_map_uuid]
    by_cases h : (_conn_infos_get infos u).isSome
    · exact Or.inl (by rw [if_pos h])
    · refine Or.inr ⟨u, ?_, by rw [if_neg h]⟩
      intro hmem2
      exact h ((conn_infos_get_isSome_iff infos u).mpr hmem2)

theorem scanStep_nodup (infos : List NMSKeyfileConnInfo) (it : ScanItem)
    (h : (infos.map (fun ci => ci.uuid)).Nodup) :
    ((scanStep infos it).map (fun ci => ci.uuid)).Nodup := by
  rcases scanStep_map_uuid infos it with heq | ⟨u, hu, heq⟩
  · rw [heq]; exact h
  · rw [heq]
    simp [List.nodup_append, h, hu]

theorem scan_foldl_nodup (items : List ScanItem) :
    ∀ (infos : List NMSKeyfileConnInfo),
      (infos.map (fun ci => ci.uuid)).Nodup →
      ((items.foldl scanStep infos).map (fun ci => ci.uuid)).Nodup := by
  induction items with
  | nil => intro infos h; exact h
  | cons it rest ih =>
    intro infos h
    exact ih (scanStep infos it) (scanStep_nodup infos it h)

theorem scanPhase_nodup (fs : Filesystem) (st : PluginState)
    (h : (st.conn_infos.map (fun ci => ci.uuid)).Nodup) :
    (((scanPhase fs st).conn_infos).map (fun ci => ci.uuid)).Nodup := by
  unfold scanPhase
  apply scan_foldl_nodup
  rw [List.map_map]
  exact h

/-- A uuid occurs at most once among the post-scan records: two members
with equal uuids are the same record. -/
theorem scanPhase_uuid_inj {fs : Filesystem} {st : PluginState}
    (h : (st.conn_infos.map (fun ci => ci.uuid)).Nodup)
    {a b : NMSKeyfileConnInfo} (ha : a ∈ (scanPhase fs st).conn_infos)
    (hb : b ∈ (scanPhase fs st).conn_infos) (hab : a.uuid = b.uuid) :
    a = b :=
  List.inj_on_of_nodup_map (scanPhase_nodup fs st h) ha hb hab

/-! ### Hint application facts -/

theorem applyHint_none (fs : Filesystem)
    (sorted : List ConnInfoStorageData) :
    applyHint fs sorted none = some (false, sorted) := rfl

theorem applyHint_mask (fs : Filesystem)
    (sorted : List ConnInfoStorageData) :
    applyHint fs sorted (some NM_KEYFILE_PATH_NMLOADED_NULL) =
      some (true, sorted) := by
  unfold applyHint
  simp

theorem applyHint_mask_inv {fs : Filesystem}
    {sorted : List ConnInfoStorageData} {masked : Bool}
    {lst : List ConnInfoStorageData}
    (h : applyHint fs sorted (some NM_KEYFILE_PATH_NMLOADED_NULL) =
      some (masked, lst)) : masked = true ∧ lst = sorted := by
  rw [applyHint_mask] at h
  cases h
  exact ⟨rfl, rfl⟩

/-! ### Unfolding a completed reload -/

theorem reload_eq {fs : Filesystem} {st : PluginState} {out : ReloadResult}
    (h : _do_reload_all fs st = some out) :
    ∃ infos dels mods n',
      processInfos fs (scanPhase fs st).conn_infos st.next_handle =
        some (infos, dels, mods, n') ∧
      out.state.conn_infos = infos ∧
      out.removals = dels ∧
      out.changes = emitChanges infos mods ∧
      out.state.filename_idx = idxEntriesOf infos ∧
      out.state.dirname_run = st.dirname_run ∧
      out.state.dirname_etc = st.dirname_etc ∧
      out.state.dirname_libs = st.dirname_libs ∧
      out.state.next_handle = n' := by
  unfold _do_reload_all at h
  simp only at h
  split at h
  · cases h
  · rename_i infos dels mods n' heq
    cases h
    exact ⟨infos, dels, mods, n', heq, rfl, rfl, rfl, rfl, rfl, rfl, rfl,
      rfl⟩

/-- C4. An in-memory ("Ephemeral") exported value survives any completed
rescan unchanged: every record of the post-scan state whose exported tier is
the in-memory tier reappears in the reload result with the same exported
connection and the same exported tier, whatever observations and hints the
scan collected for its uuid. -/
theorem claim_C4_mem_frame (fs : Filesystem) (st : PluginState)
    (out : ReloadResult) (h : _do_reload_all fs st = some out)
    (ci : NMSKeyfileConnInfo) (hci : ci ∈ (scanPhase fs st).conn_infos)
    (hmem : ci.storage_type_exported = some StorageType.mem) :
    ∃ ci' ∈ out.state.conn_infos, ci'.uuid = ci.uuid ∧
      ci'.connection_exported = ci.connection_exported ∧
      ci'.storage_type_exported = some StorageType.mem := by
  obtain ⟨infos, dels, mods, n', hproc, hinfos, -, -, -, -, -, -, -⟩ :=
    reload_eq h
  obtain ⟨m, step, hres, hkeep, -, -⟩ :=
    processInfos_mem fs _ _ _ _ _ _ hproc ci hci
  obtain ⟨masked, -, hstep⟩ := resolveRecord_eq hres
  obtain ⟨k, hk, hku, hkc, hkrest⟩ :=
    resolveCore_mem_spec
      { ci with loaded_path_run := none, loaded_path_etc := none }
      masked (sortObs ci.cisd_lst) m hmem
  refine ⟨k, ?_, ?_, ?_, ?_⟩
  · rw [hinfos]
    exact hkeep k (hstep ▸ hk)
  · exact hku
  · exact hkc
  · rw [hkrest.1]
    exact hmem

/-- Witness for C4 at a concrete input: a reload over a directory holding a
profile for `u1` leaves the in-memory record of `u1` untouched. -/
theorem claim_C4_mem_frame_witness :
    ∃ ci' ∈ (reloadOut fsC4 stC4).state.conn_infos,
      ci'.uuid = ciC4scan.uuid ∧
      ci'.connection_exported = ciC4scan.connection_exported ∧
      ci'.storage_type_exported = some StorageType.mem := by
  have hmem2 : ciC4scan ∈ (scanPhase fsC4 stC4).conn_infos := by decide
  exact claim_C4_mem_frame fsC4 stC4 (reloadOut fsC4 stC4) (by decide)
    ciC4scan hmem2 (by decide)

/-- C3. A record whose surviving hint is the masking sentinel (and whose
exported tier is not the in-memory tier) ends the rescan with no exported
value: with zero observations it is deleted from the index entirely,
otherwise it is kept with exported connection and opaque handle cleared;
in either case a removal notification is emitted exactly when the record
previously had an exported value. -/
theorem claim_C3_masking (fs : Filesystem) (st : PluginState)
    (out : ReloadResult) (h : _do_reload_all fs st = some out)
    (hnodup : (st.conn_infos.map (fun ci => ci.uuid)).Nodup)
    (ci : NMSKeyfileConnInfo) (hci : ci ∈ (scanPhase fs st).conn_infos)
    (hmask : consolidateHint ci = some NM_KEYFILE_PATH_NMLOADED_NULL)
    (hmem : ci.storage_type_exported ≠ some StorageType.mem) :
    (ci.cisd_lst = [] →
      ∀ ci' ∈ out.state.conn_infos, ci'.uuid ≠ ci.uuid) ∧
    (ci.cisd_lst ≠ [] →
      ∃ ci' ∈ out.state.conn_infos, ci'.uuid = ci.uuid ∧
        ci'.connection_exported = none ∧ ci'.storage = none) ∧
    ((∃ e ∈ out.removals, e.1 = ci.uuid) ↔
      ci.connection_exported.isSome = true) := by
  obtain ⟨infos, dels, mods, n', hproc, hinfos, hdels, -, -, -, -, -, -⟩ :=
    reload_eq h
  obtain ⟨m, step, hres, hkeep, hdel, -⟩ :=
    processInfos_mem fs _ _ _ _ _ _ hproc ci hci
  obtain ⟨masked, happly, hstepeq⟩ := resolveRecord_eq hres
  rw [hmask] at happly
  obtain ⟨hm1, -⟩ := applyHint_mask_inv happly
  subst hm1
  have hmem' :
      ({ ci with loaded_path_run := none, loaded_path_etc := none } :
        NMSKeyfileConnInfo).storage_type_exported ≠
        some StorageType.mem := hmem
  refine ⟨?_, ?_, ?_, ?_⟩
  · -- zero observations: the record is gone from the index
    intro hnil ci' hci' heq
    obtain ⟨cj, hcj, m2, step2, hres2, hkept2⟩ :=
      processInfos_kept_src fs _ _ _ _ _ _ hproc ci' (hinfos ▸ hci')
    have hju : ci'.uuid = cj.uuid := resolveRecord_kept_uuid hres2 hkept2
    have hcji : cj = ci := scanPhase_uuid_inj hnodup hcj hci
      (by rw [← hju, heq])
    subst hcji
    obtain ⟨masked2, happly2, hstepeq2⟩ := resolveRecord_eq hres2
    rw [hmask] at happly2
    obtain ⟨hm2, -⟩ := applyHint_mask_inv happly2
    subst hm2
    rw [hstepeq2] at hkept2
    have hse : sortObs cj.cisd_lst = [] := by rw [hnil]; rfl
    rw [hse, resolveCore_empty_spec _ _ _ hmem'] at hkept2
    cases hkept2
  · -- observations exist: kept with cleared export and handle
    intro hne
    cases hsort : sortObs ci.cisd_lst with
    | nil =>
      exfalso
      have hlen := (sortObs_perm ci.cisd_lst).length_eq
      rw [hsort] at hlen
      exact hne (List.length_eq_zero.mp hlen.symm)
    | cons best rest =>
      rw [hstepeq, hsort] at hkeep
      obtain ⟨k, hk, hku, hkc, hkst, -⟩ :=
        resolveCore_masked_spec
          { ci with loaded_path_run := none, loaded_path_etc := none }
          best rest m hmem'
      exact ⟨k, hinfos ▸ hkeep k hk, hku, hkc, hkst⟩
  · -- a removal notification implies a prior exported value
    rintro ⟨e, he, heq⟩
    obtain ⟨cj, hcj, m2, step2, hres2, hdel2⟩ :=
      processInfos_del_src fs _ _ _ _ _ _ hproc e (hdels ▸ he)
    have hju : e.1 = cj.uuid := resolveRecord_del_uuid hres2 hdel2
    have hcji : cj = ci := scanPhase_uuid_inj hnodup hcj hci
      (by rw [← hju, heq])
    subst hcji
    obtain ⟨masked2, happly2, hstepeq2⟩ := resolveRecord_eq hres2
    rw [hmask] at happly2
    obtain ⟨hm2, -⟩ := applyHint_mask_inv happly2
    subst hm2
    rw [hstepeq2] at hdel2
    cases hsort : sortObs cj.cisd_lst with
    | nil =>
      rw [hsort, resolveCore_empty_spec _ _ _ hmem'] at hdel2
      simp only [delEventIf] at hdel2
      split at hdel2
      · assumption
      · cases hdel2
    | cons best rest =>
      rw [hsort] at hdel2
      obtain ⟨k, -, -, -, -, -, hdelev, -⟩ :=
        resolveCore_masked_spec _ best rest m2 hmem'
      rw [hdelev] at hdel2
      simp only [delEventIf] at hdel2
      split at hdel2
      · assumption
      · cases hdel2
  · -- a prior exported value forces a removal notification
    intro hsome
    have hdelstep : step.del_event = some (ci.uuid, ci.storage) := by
      rw [hstepeq]
      cases hsort : sortObs ci.cisd_lst with
      | nil =>
        rw [resolveCore_empty_spec _ _ _ hmem']
        simp only [delEventIf]
        rw [if_pos hsome]
      | cons best rest =>
        obtain ⟨k, -, -, -, -, -, hdelev, -⟩ :=
          resolveCore_masked_spec
            { ci with loaded_path_run := none, loaded_path_etc := none }
            best rest m hmem'
        rw [hdelev]
        simp only [delEventIf]
        rw [if_pos hsome]
    exact ⟨(ci.uuid, ci.storage), hdels ▸ hdel _ hdelstep, rfl⟩

/-- Witness for C3 at a concrete input: after scanning `fsC3` the record of
`u1` holds one observation and the masking hint; the reload keeps it with
no exported value and no handle and emits a removal. -/
theorem claim_C3_masking_witness :
    (ciC3scan.cisd_lst = [] →
      ∀ ci' ∈ (reloadOut fsC3 stC3).state.conn_infos,
        ci'.uuid ≠ ciC3scan.uuid) ∧
    (ciC3scan.cisd_lst ≠ [] →
      ∃ ci' ∈ (reloadOut fsC3 stC3).state.conn_infos,
        ci'.uuid = ciC3scan.uuid ∧
        ci'.connection_exported = none ∧ ci'.storage = none) ∧
    ((∃ e ∈ (reloadOut fsC3 stC3).removals, e.1 = ciC3scan.uuid) ↔
      ciC3scan.connection_exported.isSome = true) :=
  claim_C3_masking fsC3 stC3 (reloadOut fsC3 stC3) (by decide)
    (by decide) ciC3scan (by decide) (by decide) (by decide)

/-- The winner branch's exported connection in terms of
`expectedExported`. -/
theorem winner_connection_eq (r : NMSKeyfileConnInfo)
    (best : ConnInfoStorageData) :
    (if winnerModified r best then best.connection
     else r.connection_exported) =
      expectedExported best.connection r.connection_exported := by
  unfold winnerModified _conn_info_has_equal_connection expectedExported
  cases hbc : best.connection with
  | none =>
    cases hp : r.connection_exported <;> simp
  | some c =>
    cases hp : r.connection_exported with
    | none => simp
    | some p =>
      cases hcmp : nm_connection_compare_ignore_secrets c p <;>
        simp [hcmp]

/-- C1 (amended). For every completed rescan and every post-scan record
with at least one observation, no surviving hint and an exported tier other
than the in-memory tier, the reload result contains the record with its
exported tier set to the tier of the minimal observation under the
composite order (ascending priority rank, then descending modification
time, then ascending filename) and its exported payload equal to that
observation's payload — except that a prior exported value that equals the
winner under the secret-ignoring comparison is kept unchanged. -/
theorem claim_C1_priority_amended (fs : Filesystem) (st : PluginState)
    (out : ReloadResult) (h : _do_reload_all fs st = some out)
    (ci : NMSKeyfileConnInfo) (hci : ci ∈ (scanPhase fs st).conn_infos)
    (hmem : ci.storage_type_exported ≠ some StorageType.mem)
    (hobs : ci.cisd_lst ≠ [])
    (hhint : applyHint fs (sortObs ci.cisd_lst) (consolidateHint ci) =
      some (false, sortObs ci.cisd_lst)) :
    ∃ ci' ∈ out.state.conn_infos, ci'.uuid = ci.uuid ∧
      ∃ best ∈ ci.cisd_lst,
        (∀ sd ∈ ci.cisd_lst, cisdLE best sd = true) ∧
        ci'.storage_type_exported = some best.storage_type ∧
        ci'.connection_exported =
          expectedExported best.connection ci.connection_exported := by
  obtain ⟨infos, dels, mods, n', hproc, hinfos, -, -, -, -, -, -, -⟩ :=
    reload_eq h
  obtain ⟨m, step, hres, hkeep, -, -⟩ :=
    processInfos_mem fs _ _ _ _ _ _ hproc ci hci
  obtain ⟨masked, happly, hstepeq⟩ := resolveRecord_eq hres
  rw [hhint] at happly
  have hmasked : masked = false := by cases happly; rfl
  subst hmasked
  have hmem' :
      ({ ci with loaded_path_run := none, loaded_path_etc := none } :
        NMSKeyfileConnInfo).storage_type_exported ≠
        some StorageType.mem := hmem
  cases hsort : sortObs ci.cisd_lst with
  | nil =>
    exfalso
    have hlen := (sortObs_perm ci.cisd_lst).length_eq
    rw [hsort] at hlen
    exact hobs (List.length_eq_zero.mp hlen.symm)
  | cons best rest =>
    rw [hstepeq, hsort] at hkeep
    obtain ⟨k, hk, hku, hkt, hkc, -⟩ :=
      resolveCore_winner_spec
        { ci with loaded_path_run := none, loaded_path_etc := none }
        best rest m hmem'
    have hbestmem : best ∈ ci.cisd_lst := by
      have : best ∈ sortObs ci.cisd_lst := by
        rw [hsort]; exact List.mem_cons_self _ _
      exact (sortObs_perm ci.cisd_lst).mem_iff.mp this
    refine ⟨k, hinfos ▸ hkeep k hk, hku, best, hbestmem,
      sortObs_head_minimal hsort, hkt, ?_⟩
    rw [hkc]
    exact winner_connection_eq
      { ci with loaded_path_run := none, loaded_path_etc := none } best

/-- Witness for the amended C1 at a concrete input: with two profiles for
`u1` in the run directory, the newer one wins and its payload is exported. -/
theorem claim_C1_priority_amended_witness :
    ∃ ci' ∈ (reloadOut fsC1w stEmpty).state.conn_infos,
      ci'.uuid = ciC1scan.uuid ∧
      ∃ best ∈ ciC1scan.cisd_lst,
        (∀ sd ∈ ciC1scan.cisd_lst, cisdLE best sd = true) ∧
        ci'.storage_type_exported = some best.storage_type ∧
        ci'.connection_exported =
          expectedExported best.connection ciC1scan.connection_exported :=
  claim_C1_priority_amended fsC1w stEmpty (reloadOut fsC1w stEmpty)
    (by decide) ciC1scan (by decide) (by decide) (by decide) (by decide)

/-- Counterexample to C1 as stated. First scenario: the record of `u1` has
one observation (payload `connA`) and no hint, yet after the reload its
exported payload is still the in-memory payload `connMem`, which differs
from the minimal observation's payload. Second scenario: the only
observation's payload `connASecret` differs from the prior exported value
`connA` only in an agent-owned secret, and after the reload the exported
payload is still literally `connA`, not the minimal observation's payload
`connASecret`. -/
theorem claim_C1_counterexample :
    ((scanPhase fsC4 stC4).conn_infos = [ciC4scan] ∧
     consolidateHint ciC4scan = none ∧
     ciC4scan.cisd_lst.map (fun sd => sd.connection) = [some connA] ∧
     (reloadOut fsC4 stC4).state.conn_infos.map
       (fun ci => ci.connection_exported) = [some connMem] ∧
     _do_reload_all fsC4 stC4 = some (reloadOut fsC4 stC4) ∧
     connMem ≠ connA) ∧
    ((scanPhase fsC1s stC1s).conn_infos.map
       (fun ci => (ci.cisd_lst.map (fun sd => sd.connection),
         ci.loaded_path_run, ci.loaded_path_etc)) =
       [([some connASecret], none, none)] ∧
     (reloadOut fsC1s stC1s).state.conn_infos.map
       (fun ci => ci.connection_exported) = [some connA] ∧
     _do_reload_all fsC1s stC1s = some (reloadOut fsC1s stC1s) ∧
     connA ≠ connASecret ∧
     nm_connection_compare_ignore_secrets connASecret connA = true) := by
  decide

/-! ### Membership through the index operations -/

theorem updateInfo_mem {l : List NMSKeyfileConnInfo} {u : String}
    {f : NMSKeyfileConnInfo → NMSKeyfileConnInfo}
    {ci' : NMSKeyfileConnInfo} (h : ci' ∈ updateInfo l u f) :
    ci' ∈ l ∨ ∃ ci, ci ∈ l ∧ ci' = f ci := by
  induction l with
  | nil => cases h
  | cons hd tl ih =>
    unfold updateInfo at h
    split at h
    · rcases List.mem_cons.mp h with heq | hmem2
      · exact Or.inr ⟨hd, List.mem_cons_self _ _, heq⟩
      · exact Or.inl (List.mem_cons_of_mem _ hmem2)
    · rcases List.mem_cons.mp h with heq | hmem2
      · exact Or.inl (heq ▸ List.mem_cons_self _ _)
      · rcases ih hmem2 with hl | ⟨ci, hci, heq2⟩
        · exact Or.inl (List.mem_cons_of_mem _ hl)
        · exact Or.inr ⟨ci, List.mem_cons_of_mem _ hci, heq2⟩

theorem conn_infos_add_mem {l : List NMSKeyfileConnInfo} {u : String}
    {ci' : NMSKeyfileConnInfo} (h : ci' ∈ _conn_infos_add l u) :
    ci' ∈ l ∨ ci' = _conn_info_new u := by
  unfold _conn_infos_add at h
  split at h
  · exact Or.inl h
  · rcases List.mem_append.mp h with hl | hr
    · exact Or.inl hl
    · exact Or.inr (List.mem_singleton.mp hr)

theorem conn_infos_get_some {l : List NMSKeyfileConnInfo} {u : String}
    {ci : NMSKeyfileConnInfo} (h : _conn_infos_get l u = some ci) :
    ci ∈ l ∧ ci.uuid = u := by
  unfold _conn_infos_get at h
  refine ⟨List.mem_of_find?_eq_some h, ?_⟩
  have := List.find?_some h
  exact of_decide_eq_true this

theorem conn_infos_get_of_mem_nodup {l : List NMSKeyfileConnInfo}
    (hnodup : (l.map (fun ci => ci.uuid)).Nodup)
    {k : NMSKeyfileConnInfo} (hk : k ∈ l) :
    _conn_infos_get l k.uuid = some k := by
  have hsome : (_conn_infos_get l k.uuid).isSome = true := by
    rw [conn_infos_get_isSome_iff]
    exact List.mem_map.mpr ⟨k, hk, rfl⟩
  obtain ⟨ci, hci⟩ := Option.isSome_iff_exists.mp hsome
  obtain ⟨hmem2, huuid⟩ := conn_infos_get_some hci
  have : ci = k := List.inj_on_of_nodup_map hnodup hmem2 hk huuid
  rw [hci, this]

/-! ### The scan only produces decodable, on-disk observations -/

/-- The per-stream invariant: every collected observation still carries its
decoded connection and belongs to an on-disk tier. -/
def ObsInv (infos : List NMSKeyfileConnInfo) : Prop :=
  ∀ ci ∈ infos, ∀ sd ∈ ci.cisd_lst,
    sd.connection.isSome = true ∧ sd.storage_type ≠ StorageType.mem

theorem scanStep_preserves_obsInv {infos : List NMSKeyfileConnInfo}
    {it : ScanItem} (hit : it.storage_type ≠ StorageType.mem)
    (h : ObsInv infos) : ObsInv (scanStep infos it) := by
  intro ci' hci' sd hsd
  rcases hact : itemAction it with _ | ⟨u, sd0⟩ | ⟨u, t⟩ | ⟨u, t⟩
  · have hstep : scanStep infos it = infos := by
      unfold scanStep; rw [hact]
    rw [hstep] at hci'
    exact h ci' hci' sd hsd
  · have hstep : scanStep infos it =
        updateInfo (_conn_infos_add infos u) u
          (fun ci => { ci with cisd_lst := ci.cisd_lst ++ [sd0] }) := by
      unfold scanStep; rw [hact]
    rw [hstep] at hci'
    have hsd0 : sd0.connection.isSome = true ∧
        sd0.storage_type ≠ StorageType.mem := by
      unfold itemAction at hact
      split at hact
      · split at hact <;> first
        | (cases hact)
        | (split at hact <;> first
            | (cases hact)
            | (split at hact <;> cases hact))
      · split at hact
        · cases hact
          exact ⟨rfl, hit⟩
        · cases hact
    rcases updateInfo_mem hci' with hl | ⟨ci, hcimem, heq⟩
    · rcases conn_infos_add_mem hl with hold | hnew
      · exact h ci' hold sd hsd
      · rw [hnew] at hsd
        cases hsd
    · rcases conn_infos_add_mem hcimem with hold | hnew
      · rw [heq] at hsd
        simp only at hsd
        rcases List.mem_append.mp hsd with hsdl | hsdr
        · exact h ci hold sd hsdl
        · rw [List.mem_singleton.mp hsdr]
          exact hsd0
      · rw [heq, hnew] at hsd
        simp only [_conn_info_new, List.nil_append] at hsd
        rw [List.mem_singleton.mp hsd]
        exact hsd0
  · have hstep : scanStep infos it =
        updateInfo (_conn_infos_add infos u) u
          (fun ci => { ci with loaded_path_run := some t }) := by
      unfold scanStep; rw [hact]
    rw [hstep] at hci'
    rcases updateInfo_mem hci' with hl | ⟨ci, hcimem, heq⟩
    · rcases conn_infos_add_mem hl with hold | hnew
      · exact h ci' hold sd hsd
      · rw [hnew] at hsd; cases hsd
    · rcases conn_infos_add_mem hcimem with hold | hnew
      · rw [heq] at hsd
        exact h ci hold sd hsd
      · rw [heq, hnew] at hsd
        cases hsd
  · have hstep : scanStep infos it =
        updateInfo (_conn_infos_add infos u) u
          (fun ci => { ci with loaded_path_etc := some t }) := by
      unfold scanStep; rw [hact]
    rw [hstep] at hci'
    rcases updateInfo_mem hci' with hl | ⟨ci, hcimem, heq⟩
    · rcases conn_infos_add_mem hl with hold | hnew
      · exact h ci' hold sd hsd
      · rw [hnew] at hsd; cases hsd
    · rcases conn_infos_add_mem hcimem with hold | hnew
      · rw [heq] at hsd
        exact h ci hold sd hsd
      · rw [heq, hnew] at hsd
        cases hsd

theorem dirItems_types (fs : Filesystem) (p : Nat) (t : StorageType)
    (d : Option String) : ∀ it ∈ dirItems fs p t d, it.storage_type = t := by
  intro it hit
  cases d with
  | none => cases hit
  | some d0 =>
    unfold dirItems at hit
    simp only at hit
    cases hrd : fs.readDir d0 with
    | none =>
      rw [hrd] at hit
      cases hit
    | some entries =>
      rw [hrd] at hit
      simp only at hit
      obtain ⟨e, -, heq⟩ := List.mem_map.mp hit
      rw [← heq]

theorem libItems_types (fs : Filesystem) :
    ∀ (i : Nat) (libs : List String), ∀ it ∈ libItems fs i libs,
      it.storage_type = StorageType.lib := by
  intro i libs
  induction libs generalizing i with
  | nil => intro it hit; cases hit
  | cons d rest ih =>
    intro it hit
    unfold libItems at hit
    rcases List.mem_append.mp hit with hl | hr
    · exact dirItems_types fs _ _ _ it hl
    · exact ih (i + 1) it hr

theorem entryStream_types (fs : Filesystem) (dr de : Option String)
    (libs : List String) :
    ∀ it ∈ entryStream fs dr de libs,
      it.storage_type ≠ StorageType.mem := by
  intro it hit
  unfold entryStream at hit
  rcases List.mem_append.mp hit with hl | hr
  · rcases List.mem_append.mp hl with hll | hlr
    · rw [dirItems_types fs 0 StorageType.run dr it hll]
      intro hc; cases hc
    · rw [dirItems_types fs 1 StorageType.etc de it hlr]
      intro hc; cases hc
  · rw [libItems_types fs 0 libs it hr]
    intro hc; cases hc

theorem scan_foldl_obsInv (items : List ScanItem)
    (hits : ∀ it ∈ items, it.storage_type ≠ StorageType.mem) :
    ∀ (infos : List NMSKeyfileConnInfo), ObsInv infos →
      ObsInv (items.foldl scanStep infos) := by
  induction items with
  | nil => intro infos h; exact h
  | cons it rest ih =>
    intro infos h
    exact ih (fun x hx => hits x (List.mem_cons_of_mem _ hx))
      (scanStep infos it)
      (scanStep_preserves_obsInv (hits it (List.mem_cons_self _ _)) h)

/-- Every observation attached by the scan carries a decoded connection and
an on-disk tier. -/
theorem scanPhase_obsInv (fs : Filesystem) (st : PluginState) :
    ObsInv (scanPhase fs st).conn_infos := by
  unfold scanPhase
  apply scan_foldl_obsInv
  · exact entryStream_types fs st.dirname_run st.dirname_etc st.dirname_libs
  · intro ci hci sd hsd
    obtain ⟨ci0, -, heq⟩ := List.mem_map.mp hci
    rw [← heq] at hsd
    cases hsd

/-! ### Emitted change events -/

theorem emitChanges_src {infos : List NMSKeyfileConnInfo}
    {mods : List String} {ev : ChangeEvent}
    (h : ev ∈ emitChanges infos mods) : ev.uuid ∈ mods := by
  unfold emitChanges at h
  obtain ⟨u, hu, hf⟩ := List.mem_filterMap.mp h
  cases hg : _conn_infos_get infos u with
  | none => rw [hg] at hf; cases hf
  | some ci =>
    rw [hg] at hf
    simp only at hf
    cases hc : ci.connection_exported with
    | none => rw [hc] at hf; simp only at hf; cases hf
    | some c =>
      rw [hc] at hf
      simp only at hf
      cases hf
      exact hu

theorem emitChanges_complete {infos : List NMSKeyfileConnInfo}
    {mods : List String} {u : String} {ci : NMSKeyfileConnInfo}
    {c : NMConnection} (hu : u ∈ mods)
    (hg : _conn_infos_get infos u = some ci)
    (hc : ci.connection_exported = some c) :
    ({ uuid := u, storage := ci.storage, connection := c } : ChangeEvent) ∈
      emitChanges infos mods := by
  unfold emitChanges
  refine List.mem_filterMap.mpr ⟨u, hu, ?_⟩
  rw [hg]
  simp only
  rw [hc]

/-- C6. A queued-and-emitted add/modify notification appears for a record
with a winning observation exactly when the record had no prior exported
value or the winner differs from it under the secret-ignoring comparison
(`winnerModified`); and a single-file load emits its immediate notification
under exactly the same condition (`_conn_info_has_equal_connection` on the
prior record). In particular a winner differing from the exported value
only in agent-owned or not-saved secrets never produces a notification. -/
theorem claim_C6_change_detection :
    (∀ (fs : Filesystem) (st : PluginState) (out : ReloadResult),
      _do_reload_all fs st = some out →
      (st.conn_infos.map (fun ci => ci.uuid)).Nodup →
      ∀ ci ∈ (scanPhase fs st).conn_infos,
        ci.storage_type_exported ≠ some StorageType.mem →
        ∀ best rest, sortObs ci.cisd_lst = best :: rest →
        applyHint fs (sortObs ci.cisd_lst) (consolidateHint ci) =
          some (false, sortObs ci.cisd_lst) →
        ((∃ ev ∈ out.changes, ev.uuid = ci.uuid) ↔
          winnerModified ci best = true)) ∧
    (∀ (fs : Filesystem) (st : PluginState) (p : String) (ok : LoadOk),
      _do_load_connection fs st p = Except.ok ok →
      (ok.event.isSome = true ↔
        _conn_info_has_equal_connection
          (loadPrior st ok.out_connection.uuid) ok.out_connection =
          false)) := by
  constructor
  · intro fs st out h hnodup ci hci hmem best rest hsort hhint
    obtain ⟨infos, dels, mods, n', hproc, hinfos, -, hchanges, -, -, -, -,
      -⟩ := reload_eq h
    obtain ⟨m, step, hres, hkeep, -, hmod⟩ :=
      processInfos_mem fs _ _ _ _ _ _ hproc ci hci
    obtain ⟨masked, happly, hstepeq⟩ := resolveRecord_eq hres
    rw [hhint] at happly
    have hmasked : masked = false := by cases happly; rfl
    subst hmasked
    have hmem' :
        ({ ci with loaded_path_run := none, loaded_path_etc := none } :
          NMSKeyfileConnInfo).storage_type_exported ≠
          some StorageType.mem := hmem
    have hwmtransfer :
        winnerModified
          { ci with loaded_path_run := none, loaded_path_etc := none }
          best = winnerModified ci best := rfl
    have hnodupinfos : (infos.map (fun x => x.uuid)).Nodup :=
      (scanPhase_nodup fs st hnodup).sublist
        (processInfos_uuid_sublist fs _ _ _ _ _ _ hproc)
    constructor
    · rintro ⟨ev, hevmem, hevu⟩
      rw [hchanges] at hevmem
      have humods : ev.uuid ∈ mods := emitChanges_src hevmem
      rw [hevu] at humods
      obtain ⟨cj, hcj, m2, step2, hres2, hmod2⟩ :=
        processInfos_mod_src fs _ _ _ _ _ _ hproc ci.uuid humods
      have hju : ci.uuid = cj.uuid := resolveRecord_mod_uuid hres2 hmod2
      have hcji : cj = ci := scanPhase_uuid_inj hnodup hcj hci hju.symm
      rw [hcji] at hres2
      obtain ⟨masked2, happly2, hstepeq2⟩ := resolveRecord_eq hres2
      rw [hhint] at happly2
      have hmasked2 : masked2 = false := by cases happly2; rfl
      subst hmasked2
      rw [hstepeq2, hsort] at hmod2
      obtain ⟨k2, -, -, -, -, -, -, hmodev2⟩ :=
        resolveCore_winner_spec
          { ci with loaded_path_run := none, loaded_path_etc := none }
          best rest m2 hmem'
      rw [hmodev2] at hmod2
      by_cases hwm : winnerModified ci best = true
      · exact hwm
      · rw [← hwmtransfer] at hwm
        rw [if_neg hwm] at hmod2
        cases hmod2
    · intro hwm
      rw [hstepeq, hsort] at hkeep hmod
      obtain ⟨k, hk, hku, -, hkc, -, -, hmodev⟩ :=
        resolveCore_winner_spec
          { ci with loaded_path_run := none, loaded_path_etc := none }
          best rest m hmem'
      rw [← hwmtransfer] at hwm
      rw [hmodev, if_pos hwm] at hmod
      have humods : ci.uuid ∈ mods := hmod _ rfl
      have hkmem : k ∈ infos := hkeep k hk
      have hbestmem : best ∈ ci.cisd_lst := by
        have hmem2 : best ∈ sortObs ci.cisd_lst := by
          rw [hsort]; exact List.mem_cons_self _ _
        exact (sortObs_perm ci.cisd_lst).mem_iff.mp hmem2
      obtain ⟨c, hc⟩ := Option.isSome_iff_exists.mp
        (scanPhase_obsInv fs st ci hci best hbestmem).1
      have hkconn : k.connection_exported = some c := by
        rw [hkc, if_pos hwm, hc]
      have hget : _conn_infos_get infos ci.uuid = some k := by
        have := conn_infos_get_of_mem_nodup hnodupinfos hkmem
        rw [hku] at this
        exact this
      refine ⟨{ uuid := ci.uuid, storage := k.storage, connection := c },
        ?_, rfl⟩
      rw [hchanges]
      exact emitChanges_complete humods hget hkconn
  · intro fs st p ok h
    unfold _do_load_connection at h
    split at h
    · cases h
    · rename_i storage_type dirname filename hdet
      cases hread : fs.readFileIn dirname filename with
      | none =>
        rw [hread] at h
        cases h
      | some pr =>
        obtain ⟨connection, st0⟩ := pr
        rw [hread] at h
        simp only at h
        cases h
        by_cases hm : _conn_info_has_equal_connection
            (loadPrior st connection.uuid) connection = true
        · simp [hm]
        · simp only [Bool.not_eq_true] at hm
          simp [hm]

/-- Witness for C6 at concrete inputs: a profile differing from the
exported value only in an agent-owned secret produces no reload
notification, and a single-file load of a genuinely new profile emits its
notification. -/
theorem claim_C6_change_detection_witness :
    ((∃ ev ∈ (reloadOut fsC1s stC1s).changes, ev.uuid = ciC1sScan.uuid) ↔
      winnerModified ciC1sScan
        (_conn_info_storage_data_new 0 StorageType.run
          "/run/nm/a.nmconnection" (some connASecret) statA) = true) ∧
    (loadOutC6.event.isSome = true ↔
      _conn_info_has_equal_connection
        (loadPrior stEmpty loadOutC6.out_connection.uuid)
        loadOutC6.out_connection = false) := by
  constructor
  · exact claim_C6_change_detection.1 fsC1s stC1s (reloadOut fsC1s stC1s)
      (by decide) (by decide) ciC1sScan (by decide) (by decide) _ []
      (by decide) (by decide)
  · exact claim_C6_change_detection.2 fsC1w stEmpty
      "/run/nm/a.nmconnection" loadOutC6 (by rfl)

/-- C2 (failing input). The `while` loop of
`_conn_info_storage_data_prioritize_loaded` takes `c_list_first_entry` on
every iteration and never advances, so when the hint's stat result matches
the SECOND sorted observation and not the first, the loop never returns,
for any amount of fuel — and consequently the whole reload does not
terminate on `fsC2`, where the hint pins the older of two files. The claim
(and the spec's own scenario) expect the matching observation to be moved
to the front instead. -/
theorem claim_C2_hint_pinning_loop :
    (∀ fuel, prioritize_loaded_loop statA cisdC2 fuel = none) ∧
    _do_reload_all fsC2 stEmpty = none := by
  constructor
  · intro fuel
    induction fuel with
    | zero => rfl
    | succ n ih =>
      rw [show prioritize_loaded_loop statA cisdC2 (n + 1) =
          (if sdC2b.stat_dev = statA.dev ∧ sdC2b.stat_ino = statA.ino then
            some true
          else prioritize_loaded_loop statA cisdC2 n) from rfl]
      rw [if_neg (by decide)]
      exact ih
  · decide

/-- C7 (failing input). Loading a file for a uuid with no existing record:
`_conn_info_ensure_storage` runs before `connection_exported` is assigned,
so no storage handle is created; the caller receives a `NULL` handle
(`g_object_ref (NULL)`, modelled as `none`) and the change notification is
emitted with a `NULL` storage, even though the load succeeds, the tier is
adopted, the exported connection is set and the run-tier loaded hint is
written. The claim (and the spec) say the opaque handle is ensured before
being returned. -/
theorem claim_C7_load_handle_bug :
    _do_load_connection fsC1w stEmpty "/run/nm/a.nmconnection" =
      Except.ok loadOutC6 ∧
    loadOutC6.out_storage = none ∧
    loadOutC6.event =
      some { uuid := "u1", storage := none, connection := connA } ∧
    loadOutC6.state.conn_infos.map
      (fun ci => (ci.uuid, ci.connection_exported.isSome, ci.storage)) =
      [("u1", true, none)] ∧
    loadOutC6.state.conn_infos.map (fun ci => ci.storage_type_exported) =
      [some StorageType.run] ∧
    loadOutC6.hint_written = ("u1", "/run/nm/a.nmconnection") := by
  refine ⟨by rfl, ?_⟩
  decide

/-- C8. The directory classifier equals the spec-shaped classifier: it
fails exactly when the path is not absolute, lies in no configured
directory (matching the run directory first, then the etc directory, then
the lib directories in configuration order, first match winning), or the
filename fails the per-tier filter; and the per-tier filter is the
exclusion patterns alone for the etc (persistent) tier, while every other
tier additionally requires the keyfile suffix. -/
theorem claim_C8_classifier (full : String) (libs : List String)
    (de dr : Option String) :
    (_path_detect_storage_type full libs de dr =
      (if strStarts full "/" = false then
        DetectResult.err "filename is not an absolute path"
      else
        match classifierFirstMatchSpec full libs de dr with
        | none =>
          DetectResult.err "filename is not inside a keyfile directory"
        | some (t, d, fn) =>
          if _ignore_filename t fn then
            DetectResult.err "filename is not a valid keyfile"
          else DetectResult.ok t d fn)) ∧
    (∀ fn, _ignore_filename StorageType.etc fn = filenameIsExcluded fn) ∧
    (∀ t' fn, _ignore_filename t' fn =
      (filenameIsExcluded fn ||
        (decide (t' ≠ StorageType.etc) &&
          !(strEnds fn NM_KEYFILE_EXTENSION)))) := by
  refine ⟨?_, ?_, ?_⟩
  · unfold _path_detect_storage_type classifierFirstMatchSpec
    by_cases habs : strStarts full "/" = true
    · rw [if_neg (by rw [habs]; exact fun hc => hc rfl),
        if_neg (by rw [habs]; simp)]
    · simp only [Bool.not_eq_true] at habs
      rw [if_pos (by rw [habs]; intro hc; cases hc),
        if_pos (by rw [habs])]
  · intro fn
    unfold _ignore_filename nm_keyfile_utils_ignore_filename
    simp
  · intro t' fn
    unfold _ignore_filename nm_keyfile_utils_ignore_filename
    rfl

/-- C9. Error isolation: a directory entry that fails to decode leaves the
record collection untouched and the walk continues with the remaining
entries; an unopenable directory contributes nothing to the scan; and a
decode failure during a single-file load is surfaced as an error to the
caller (the state is returned unchanged by construction of the model). -/
theorem claim_C9_error_isolation :
    (∀ (infos : List NMSKeyfileConnInfo) (it : ScanItem),
      _ignore_filename it.storage_type it.filename = false →
      it.content = FileContent.badProfile →
      scanStep infos it = infos) ∧
    (∀ (fs : Filesystem) (p : Nat) (t : StorageType) (d : String),
      fs.readDir d = none → dirItems fs p t (some d) = []) ∧
    (∀ (infos : List NMSKeyfileConnInfo) (it : ScanItem)
      (rest : List ScanItem),
      _ignore_filename it.storage_type it.filename = false →
      it.content = FileContent.badProfile →
      (it :: rest).foldl scanStep infos = rest.foldl scanStep infos) ∧
    (∀ (fs : Filesystem) (st : PluginState) (full : String)
      (t : StorageType) (d fn : String),
      _path_detect_storage_type full st.dirname_libs st.dirname_etc
        st.dirname_run = DetectResult.ok t d fn →
      fs.readFileIn d fn = none →
      _do_load_connection fs st full =
        Except.error "failed to load connection") := by
  have hstep : ∀ (infos : List NMSKeyfileConnInfo) (it : ScanItem),
      _ignore_filename it.storage_type it.filename = false →
      it.content = FileContent.badProfile →
      scanStep infos it = infos := by
    intro infos it hig hbad
    have hact : itemAction it = ItemAction.skip := by
      unfold itemAction
      rw [hig]
      simp only [Bool.false_eq_true, if_false]
      rw [hbad]
    unfold scanStep
    rw [hact]
  refine ⟨hstep, ?_, ?_, ?_⟩
  · intro fs p t d h
    unfold dirItems
    simp only
    rw [h]
  · intro infos it rest hig hbad
    rw [List.foldl_cons, hstep infos it hig hbad]
  · intro fs st full t d fn hdet hread
    unfold _do_load_connection
    rw [hdet]
    simp only
    rw [hread]

/-- Witness for C9 at concrete inputs: a bad profile entry is skipped
without touching the collection, an unknown directory yields no items, and
loading an undecodable file fails. -/
theorem claim_C9_error_isolation_witness :
    (_ignore_filename itBadC9.storage_type itBadC9.filename = false ∧
      scanStep [ciC1pre] itBadC9 = [ciC1pre]) ∧
    (fsC1w.readDir "/etc/other" = none ∧
      dirItems fsC1w 0 StorageType.run (some "/etc/other") = []) ∧
    _do_load_connection fsBadC9 stEmpty "/run/nm/a.nmconnection" =
      Except.error "failed to load connection" := by
  refine ⟨⟨by decide, ?_⟩, ⟨by decide, ?_⟩, ?_⟩
  · exact claim_C9_error_isolation.1 [ciC1pre] itBadC9 (by decide)
      (by decide)
  · exact claim_C9_error_isolation.2.1 fsC1w 0 StorageType.run "/etc/other"
      (by decide)
  · exact claim_C9_error_isolation.2.2.2 fsBadC9 stEmpty
      "/run/nm/a.nmconnection" StorageType.run "/run/nm" "a.nmconnection"
      (by decide) (by decide)

/-- The uuid of the record the loader starts from. -/
theorem loadPrior_uuid (st : PluginState) (u : String) :
    (loadPrior st u).uuid = u := by
  unfold loadPrior
  cases hget : _conn_infos_get st.conn_infos u with
  | none => rfl
  | some ci =>
    simp only
    exact (conn_infos_get_some hget).2

/-- The loader's written-back record keeps the prior observation list. -/
theorem loadRecord_cisd (st : PluginState) (t : StorageType)
    (conn : NMConnection) :
    (loadRecord st t conn).1.cisd_lst =
      (loadPrior st conn.uuid).cisd_lst := by
  unfold loadRecord
  simp only
  split
  · exact ensure_storage_cisd _ _
  · exact ensure_storage_cisd _ _

/-- The loader's written-back record keeps the uuid. -/
theorem loadRecord_uuid (st : PluginState) (t : StorageType)
    (conn : NMConnection) :
    (loadRecord st t conn).1.uuid = conn.uuid := by
  unfold loadRecord
  simp only
  rw [show ∀ x : NMSKeyfileConnInfo × Nat,
      (if !(_conn_info_has_equal_connection (loadPrior st conn.uuid) conn)
        then { x.1 with connection_exported := some conn } else x.1).uuid =
      x.1.uuid from fun x => by split <;> rfl]
  rw [ensure_storage_uuid]
  exact loadPrior_uuid st conn.uuid

/-- C10. A successful single-file load leaves the file-path index exactly
as it was and appends no observation: every record of the new state carries
precisely the observation list the state already had for its uuid (and an
empty one for a freshly created record). -/
theorem claim_C10_load_frame (fs : Filesystem) (st : PluginState)
    (p : String) (ok : LoadOk)
    (h : _do_load_connection fs st p = Except.ok ok)
    (hnodup : (st.conn_infos.map (fun ci => ci.uuid)).Nodup) :
    ok.state.filename_idx = st.filename_idx ∧
    ∀ ci' ∈ ok.state.conn_infos,
      ci'.cisd_lst =
        (match _conn_infos_get st.conn_infos ci'.uuid with
         | some ci => ci.cisd_lst
         | none => []) := by
  unfold _do_load_connection at h
  split at h
  · cases h
  · rename_i storage_type dirname filename hdet
    cases hread : fs.readFileIn dirname filename with
    | none =>
      rw [hread] at h
      cases h
    | some pr =>
      obtain ⟨connection, st0⟩ := pr
      rw [hread] at h
      simp only at h
      cases h
      refine ⟨rfl, ?_⟩
      intro ci' hci'
      simp only at hci'
      by_cases hex :
          (_conn_infos_get st.conn_infos connection.uuid).isSome = true
      · rw [if_pos hex] at hci'
        rcases updateInfo_mem hci' with hold | ⟨ci, hcimem, heq⟩
        · rw [conn_infos_get_of_mem_nodup hnodup hold]
        · obtain ⟨ciX, hciX⟩ := Option.isSome_iff_exists.mp hex
          have hprior : loadPrior st connection.uuid = ciX := by
            unfold loadPrior
            rw [hciX]
          rw [heq, loadRecord_uuid, loadRecord_cisd, hciX, hprior]
      · rw [if_neg hex] at hci'
        rcases List.mem_append.mp hci' with hold | hnew
        · rw [conn_infos_get_of_mem_nodup hnodup hold]
        · have hget : _conn_infos_get st.conn_infos connection.uuid =
              none := by
            cases hget2 : _conn_infos_get st.conn_infos connection.uuid
              with
            | none => rfl
            | some ci => rw [hget2] at hex; simp at hex
          have hprior : loadPrior st connection.uuid =
              _conn_info_new connection.uuid := by
            unfold loadPrior
            rw [hget]
          rw [List.mem_singleton.mp hnew, loadRecord_uuid, loadRecord_cisd,
            hget, hprior]
          rfl

/-- Witness for C10 at a concrete input: loading a profile into the empty
state leaves the (empty) filename index untouched and the created record
holds no observation. -/
theorem claim_C10_load_frame_witness :
    loadOutC6.state.filename_idx = stEmpty.filename_idx ∧
    ∀ ci' ∈ loadOutC6.state.conn_infos,
      ci'.cisd_lst =
        (match _conn_infos_get stEmpty.conn_infos ci'.uuid with
         | some ci => ci.cisd_lst
         | none => []) :=
  claim_C10_load_frame fsC1w stEmpty "/run/nm/a.nmconnection" loadOutC6
    (by rfl) (by decide)

/-! ### Characterizing one scan step -/

theorem map_if_id (l : List NMSKeyfileConnInfo) (u : String)
    (f : NMSKeyfileConnInfo → NMSKeyfileConnInfo)
    (h : ∀ ci ∈ l, ci.uuid ≠ u) :
    l.map (fun ci => if ci.uuid = u then f ci else ci) = l := by
  induction l with
  | nil => rfl
  | cons hd tl ih =>
    rw [List.map_cons,
      if_neg (h hd (List.mem_cons_self _ _)),
      ih (fun ci hci => h ci (List.mem_cons_of_mem _ hci))]

theorem updateInfo_eq_map (l : List NMSKeyfileConnInfo) (u : String)
    (f : NMSKeyfileConnInfo → NMSKeyfileConnInfo)
    (hnodup : (l.map (fun ci => ci.uuid)).Nodup) :
    updateInfo l u f =
      l.map (fun ci => if ci.uuid = u then f ci else ci) := by
  induction l with
  | nil => rfl
  | cons hd tl ih =>
    rw [List.map_cons] at hnodup ⊢
    unfold updateInfo
    by_cases h : hd.uuid = u
    · rw [if_pos h, if_pos h]
      have htl : ∀ ci ∈ tl, ci.uuid ≠ u := by
        intro ci hci hciu
        have := (List.nodup_cons.mp hnodup).1
        exact this (h ▸ hciu ▸ List.mem_map.mpr ⟨ci, hci, rfl⟩)
      rw [map_if_id tl u f htl]
    · rw [if_neg h, if_neg h, ih (List.nodup_cons.mp hnodup).2]

theorem updateInfo_append_not_mem (l l2 : List NMSKeyfileConnInfo)
    (u : String) (f : NMSKeyfileConnInfo → NMSKeyfileConnInfo)
    (h : ∀ ci ∈ l, ci.uuid ≠ u) :
    updateInfo (l ++ l2) u f = l ++ updateInfo l2 u f := by
  induction l with
  | nil => rfl
  | cons hd tl ih =>
    simp only [List.cons_append, updateInfo]
    rw [if_neg (h hd (List.mem_cons_self _ _))]
    exact congrArg (hd :: .) (ih (fun ci hci => h ci (List.mem_cons_of_mem _ hci)))

/-- Members of `updateInfo (_conn_infos_add l u) u f` with distinct uuids:
either an old record, updated exactly when its uuid is `u`, or the freshly
created and updated record of a previously absent `u`. -/
theorem addUpdate_mem_char (l : List NMSKeyfileConnInfo) (u : String)
    (f : NMSKeyfileConnInfo → NMSKeyfileConnInfo)
    (hnodup : (l.map (fun ci => ci.uuid)).Nodup)
    (ci1 : NMSKeyfileConnInfo)
    (h : ci1 ∈ updateInfo (_conn_infos_add l u) u f) :
    (∃ ci ∈ l, ((ci.uuid = u ∧ ci1 = f ci) ∨ (ci.uuid ≠ u ∧ ci1 = ci))) ∨
    (u ∉ l.map (fun ci => ci.uuid) ∧ ci1 = f (_conn_info_new u)) := by
  by_cases hex : (_conn_infos_get l u).isSome = true
  · have hadd : _conn_infos_add l u = l := by
      unfold _conn_infos_add
      rw [if_pos hex]
    rw [hadd, updateInfo_eq_map l u f hnodup] at h
    obtain ⟨ci, hci, heq⟩ := List.mem_map.mp h
    by_cases hu : ci.uuid = u
    · exact Or.inl ⟨ci, hci, Or.inl ⟨hu, by rw [← heq, if_pos hu]⟩⟩
    · exact Or.inl ⟨ci, hci, Or.inr ⟨hu, by rw [← heq, if_neg hu]⟩⟩
  · have hnotmem : u ∉ l.map (fun ci => ci.uuid) := by
      intro hmem2
      exact hex ((conn_infos_get_isSome_iff l u).mpr hmem2)
    have hall : ∀ ci ∈ l, ci.uuid ≠ u := by
      intro ci hci hciu
      exact hnotmem (hciu ▸ List.mem_map.mpr ⟨ci, hci, rfl⟩)
    have hadd : _conn_infos_add l u = l ++ [_conn_info_new u] := by
      unfold _conn_infos_add
      rw [if_neg hex]
    rw [hadd, updateInfo_append_not_mem l _ u f hall] at h
    rcases List.mem_append.mp h with hl | hr
    · exact Or.inl ⟨ci1, hl, Or.inr ⟨hall ci1 hl, rfl⟩⟩
    · have : updateInfo [_conn_info_new u] u f = [f (_conn_info_new u)] := by
        unfold updateInfo
        rw [if_pos (show (_conn_info_new u).uuid = u from rfl)]
      rw [this] at hr
      exact Or.inr ⟨hnotmem, List.mem_singleton.mp hr⟩

/-- A hint or observation item for uuid `u` guarantees that `u` is present
after the step. -/
theorem scanStep_action_uuid_mem (infos : List NMSKeyfileConnInfo)
    (it : ScanItem) (u : String)
    (h : profile1 it u ≠ [] ∨ hintRun1 it u ≠ none ∨ hintEtc1 it u ≠ none) :
    u ∈ (scanStep infos it).map (fun ci => ci.uuid) := by
  have hmemadd : ∀ (v : String),
      v ∈ (_conn_infos_add infos v).map (fun ci => ci.uuid) := by
    intro v
    rw [conn_infos_add_map_uuid]
    by_cases hv : (_conn_infos_get infos v).isSome = true
    · rw [if_pos hv]
      exact (conn_infos_get_isSome_iff infos v).mp hv
    · rw [if_neg hv]
      exact List.mem_append_right _ (List.mem_singleton.mpr rfl)
  rcases hact : itemAction it with _ | ⟨u', sd⟩ | ⟨u', t⟩ | ⟨u', t⟩
  · exfalso
    simp only [profile1, hintRun1, hintEtc1, hact] at h
    rcases h with h | h | h <;> exact h rfl
  · have hu : u' = u := by
      simp only [profile1, hintRun1, hintEtc1, hact] at h
      rcases h with h | h | h
      · by_cases hq : u' = u
        · exact hq
        · exact absurd (by rw [if_neg hq]) h
      · exact absurd rfl h
      · exact absurd rfl h
    subst hu
    have hstep : scanStep infos it =
        updateInfo (_conn_infos_add infos u') u'
          (fun ci => { ci with cisd_lst := ci.cisd_lst ++ [sd] }) := by
      unfold scanStep; rw [hact]
    rw [hstep, updateInfo_map_uuid (_conn_infos_add infos u') u'
      (fun ci => { ci with cisd_lst := ci.cisd_lst ++ [sd] })
      (fun ci => rfl)]
    exact hmemadd u'
  · have hu : u' = u := by
      simp only [profile1, hintRun1, hintEtc1, hact] at h
      rcases h with h | h | h
      · exact absurd rfl h
      · by_cases hq : u' = u
        · exact hq
        · exact absurd (by rw [if_neg hq]) h
      · exact absurd rfl h
    subst hu
    have hstep : scanStep infos it =
        updateInfo (_conn_infos_add infos u') u'
          (fun ci => { ci with loaded_path_run := some t }) := by
      unfold scanStep; rw [hact]
    rw [hstep, updateInfo_map_uuid (_conn_infos_add infos u') u'
      (fun ci => { ci with loaded_path_run := some t })
      (fun ci => rfl)]
    exact hmemadd u'
  · have hu : u' = u := by
      simp only [profile1, hintRun1, hintEtc1, hact] at h
      rcases h with h | h | h
      · exact absurd rfl h
      · exact absurd rfl h
      · by_cases hq : u' = u
        · exact hq
        · exact absurd (by rw [if_neg hq]) h
    subst hu
    have hstep : scanStep infos it =
        updateInfo (_conn_infos_add infos u') u'
          (fun ci => { ci with loaded_path_etc := some t }) := by
      unfold scanStep; rw [hact]
    rw [hstep, updateInfo_map_uuid (_conn_infos_add infos u') u'
      (fun ci => { ci with loaded_path_etc := some t })
      (fun ci => rfl)]
    exact hmemadd u'

/-- Uuids only accumulate across a scan step. -/
theorem scanStep_uuid_mono (infos : List NMSKeyfileConnInfo)
    (it : ScanItem) (u : String)
    (h : u ∈ infos.map (fun ci => ci.uuid)) :
    u ∈ (scanStep infos it).map (fun ci => ci.uuid) := by
  rcases scanStep_map_uuid infos it with heq | ⟨v, -, heq⟩
  · rw [heq]; exact h
  · rw [heq]; exact List.mem_append_left _ h

/-! ### Composition lemmas for per-item scan contributions -/

theorem overwriteHint_none_right (h : Option String) :
    overwriteHint h none = h := by
  cases h <;> rfl

theorem overwriteHint_lastHintRun_cons (it : ScanItem)
    (its : List ScanItem) (u : String) (old : Option String) :
    overwriteHint (lastHintRun its u) (overwriteHint (hintRun1 it u) old) =
      overwriteHint (lastHintRun (it :: its) u) old := by
  simp only [lastHintRun]
  cases lastHintRun its u <;> cases hintRun1 it u <;> rfl

theorem overwriteHint_lastHintEtc_cons (it : ScanItem)
    (its : List ScanItem) (u : String) (old : Option String) :
    overwriteHint (lastHintEtc its u) (overwriteHint (hintEtc1 it u) old) =
      overwriteHint (lastHintEtc (it :: its) u) old := by
  simp only [lastHintEtc]
  cases lastHintEtc its u <;> cases hintEtc1 it u <;> rfl

theorem overwriteHint_hintRun1_cons (it : ScanItem)
    (its : List ScanItem) (u : String) :
    overwriteHint (lastHintRun its u) (hintRun1 it u) =
      lastHintRun (it :: its) u := by
  simp only [lastHintRun]
  cases lastHintRun its u <;> rfl

theorem overwriteHint_hintEtc1_cons (it : ScanItem)
    (its : List ScanItem) (u : String) :
    overwriteHint (lastHintEtc its u) (hintEtc1 it u) =
      lastHintEtc (it :: its) u := by
  simp only [lastHintEtc]
  cases lastHintEtc its u <;> rfl

theorem lastHintRun_cons_of_none (it : ScanItem) (its : List ScanItem)
    (u : String) (h : hintRun1 it u = none) :
    lastHintRun (it :: its) u = lastHintRun its u := by
  simp only [lastHintRun, h]
  cases lastHintRun its u <;> rfl

theorem lastHintEtc_cons_of_none (it : ScanItem) (its : List ScanItem)
    (u : String) (h : hintEtc1 it u = none) :
    lastHintEtc (it :: its) u = lastHintEtc its u := by
  simp only [lastHintEtc, h]
  cases lastHintEtc its u <;> rfl

/-- Full characterization of one scan step: each record after the step is
either an old record that gained exactly the item's contributions for its
uuid, with the exported fields untouched, or the fresh record of a
previously absent uuid, carrying exactly the item's contributions. -/
theorem scanStep_char (infos : List NMSKeyfileConnInfo) (it : ScanItem)
    (hnodup : (infos.map (fun ci => ci.uuid)).Nodup)
    (ci1 : NMSKeyfileConnInfo) (h : ci1 ∈ scanStep infos it) :
    (∃ ci ∈ infos, ci1.uuid = ci.uuid ∧
      ci1.cisd_lst = ci.cisd_lst ++ profile1 it ci.uuid ∧
      ci1.loaded_path_run =
        overwriteHint (hintRun1 it ci.uuid) ci.loaded_path_run ∧
      ci1.loaded_path_etc =
        overwriteHint (hintEtc1 it ci.uuid) ci.loaded_path_etc ∧
      ci1.storage_type_exported = ci.storage_type_exported ∧
      ci1.connection_exported = ci.connection_exported ∧
      ci1.storage = ci.storage) ∨
    (ci1.uuid ∉ infos.map (fun ci => ci.uuid) ∧
      ci1.cisd_lst = profile1 it ci1.uuid ∧
      ci1.loaded_path_run = hintRun1 it ci1.uuid ∧
      ci1.loaded_path_etc = hintEtc1 it ci1.uuid ∧
      ci1.storage_type_exported = none ∧
      ci1.connection_exported = none ∧
      ci1.storage = none) := by
  rcases hact : itemAction it with _ | ⟨u', sd⟩ | ⟨u', t⟩ | ⟨u', t⟩
  · have hstep : scanStep infos it = infos := by
      unfold scanStep; rw [hact]
    rw [hstep] at h
    refine Or.inl ⟨ci1, h, rfl, ?_, ?_, ?_, rfl, rfl, rfl⟩
    · simp [profile1, hact]
    · simp [hintRun1, hact, overwriteHint]
    · simp [hintEtc1, hact, overwriteHint]
  · have hstep : scanStep infos it =
        updateInfo (_conn_infos_add infos u') u'
          (fun ci => { ci with cisd_lst := ci.cisd_lst ++ [sd] }) := by
      unfold scanStep; rw [hact]
    rw [hstep] at h
    rcases addUpdate_mem_char infos u' _ hnodup ci1 h with
      ⟨ci, hci, ⟨hu, heq⟩ | ⟨hu, heq⟩⟩ | ⟨hnm, heq⟩
    · subst heq
      refine Or.inl ⟨ci, hci, rfl, ?_, ?_, ?_, rfl, rfl, rfl⟩
      · simp [profile1, hact, hu]
      · simp [hintRun1, hact, overwriteHint]
      · simp [hintEtc1, hact, overwriteHint]
    · subst heq
      refine Or.inl ⟨ci1, hci, rfl, ?_, ?_, ?_, rfl, rfl, rfl⟩
      · simp [profile1, hact, Ne.symm hu]
      · simp [hintRun1, hact, overwriteHint]
      · simp [hintEtc1, hact, overwriteHint]
    · subst heq
      refine Or.inr ⟨hnm, ?_, ?_, ?_, rfl, rfl, rfl⟩
      · simp [profile1, hact, _conn_info_new]
      · simp [hintRun1, hact, _conn_info_new]
      · simp [hintEtc1, hact, _conn_info_new]
  · have hstep : scanStep infos it =
        updateInfo (_conn_infos_add infos u') u'
          (fun ci => { ci with loaded_path_run := some t }) := by
      unfold scanStep; rw [hact]
    rw [hstep] at h
    rcases addUpdate_mem_char infos u' _ hnodup ci1 h with
      ⟨ci, hci, ⟨hu, heq⟩ | ⟨hu, heq⟩⟩ | ⟨hnm, heq⟩
    · subst heq
      refine Or.inl ⟨ci, hci, rfl, ?_, ?_, ?_, rfl, rfl, rfl⟩
      · simp [profile1, hact]
      · simp [hintRun1, hact, overwriteHint, hu]
      · simp [hintEtc1, hact, overwriteHint]
    · subst heq
      refine Or.inl ⟨ci1, hci, rfl, ?_, ?_, ?_, rfl, rfl, rfl⟩
      · simp [profile1, hact]
      · simp [hintRun1, hact, overwriteHint, Ne.symm hu]
      · simp [hintEtc1, hact, overwriteHint]
    · subst heq
      refine Or.inr ⟨hnm, ?_, ?_, ?_, rfl, rfl, rfl⟩
      · simp [profile1, hact, _conn_info_new]
      · simp [hintRun1, hact, _conn_info_new]
      · simp [hintEtc1, hact, _conn_info_new]
  · have hstep : scanStep infos it =
        updateInfo (_conn_infos_add infos u') u'
          (fun ci => { ci with loaded_path_etc := some t }) := by
      unfold scanStep; rw [hact]
    rw [hstep] at h
    rcases addUpdate_mem_char infos u' _ hnodup ci1 h with
      ⟨ci, hci, ⟨hu, heq⟩ | ⟨hu, heq⟩⟩ | ⟨hnm, heq⟩
    · subst heq
      refine Or.inl ⟨ci, hci, rfl, ?_, ?_, ?_, rfl, rfl, rfl⟩
      · simp [profile1, hact]
      · simp [hintRun1, hact, overwriteHint]
      · simp [hintEtc1, hact, overwriteHint, hu]
    · subst heq
      refine Or.inl ⟨ci1, hci, rfl, ?_, ?_, ?_, rfl, rfl, rfl⟩
      · simp [profile1, hact]
      · simp [hintRun1, hact, overwriteHint]
      · simp [hintEtc1, hact, overwriteHint, Ne.symm hu]
    · subst heq
      refine Or.inr ⟨hnm, ?_, ?_, ?_, rfl, rfl, rfl⟩
      · simp [profile1, hact, _conn_info_new]
      · simp [hintRun1, hact, _conn_info_new]
      · simp [hintEtc1, hact, _conn_info_new]

/-- Characterization of a whole scan walk over a stream of items: every
surviving record is an old record extended with exactly the stream's
observations for its uuid, its hint fields overwritten by the stream's
last hints, exported fields untouched; or the fresh record of a uuid
absent before the walk, carrying exactly the stream's contributions. -/
theorem scan_foldl_char (items : List ScanItem) :
    ∀ infos0 : List NMSKeyfileConnInfo,
    (infos0.map (fun ci => ci.uuid)).Nodup →
    ∀ ci1 ∈ items.foldl scanStep infos0,
    (∃ ci ∈ infos0, ci1.uuid = ci.uuid ∧
      ci1.cisd_lst = ci.cisd_lst ++ profilesOfItems items ci.uuid ∧
      ci1.loaded_path_run =
        overwriteHint (lastHintRun items ci.uuid) ci.loaded_path_run ∧
      ci1.loaded_path_etc =
        overwriteHint (lastHintEtc items ci.uuid) ci.loaded_path_etc ∧
      ci1.storage_type_exported = ci.storage_type_exported ∧
      ci1.connection_exported = ci.connection_exported ∧
      ci1.storage = ci.storage) ∨
    (ci1.uuid ∉ infos0.map (fun ci => ci.uuid) ∧
      ci1.cisd_lst = profilesOfItems items ci1.uuid ∧
      ci1.loaded_path_run = lastHintRun items ci1.uuid ∧
      ci1.loaded_path_etc = lastHintEtc items ci1.uuid ∧
      ci1.storage_type_exported = none ∧
      ci1.connection_exported = none ∧
      ci1.storage = none) := by
  induction items with
  | nil =>
    intro infos0 hnodup ci1 h
    refine Or.inl ⟨ci1, h, rfl, ?_, ?_, ?_, rfl, rfl, rfl⟩
    · simp [profilesOfItems]
    · simp [lastHintRun, overwriteHint]
    · simp [lastHintEtc, overwriteHint]
  | cons it its ih =>
    intro infos0 hnodup ci1 h
    rw [List.foldl_cons] at h
    have hnodup1 := scanStep_nodup infos0 it hnodup
    rcases ih (scanStep infos0 it) hnodup1 ci1 h with
      ⟨ci', hci', hu1, hc1, hr1, he1, hs1, hx1, hg1⟩ |
      ⟨hnm1, hc1, hr1, he1, hs1, hx1, hg1⟩
    · rcases scanStep_char infos0 it hnodup ci' hci' with
        ⟨ci, hci, hu2, hc2, hr2, he2, hs2, hx2, hg2⟩ |
        ⟨hnm2, hc2, hr2, he2, hs2, hx2, hg2⟩
      · refine Or.inl ⟨ci, hci, hu1.trans hu2, ?_, ?_, ?_,
          hs1.trans hs2, hx1.trans hx2, hg1.trans hg2⟩
        · rw [hc1, hc2, hu2]
          simp only [profilesOfItems, List.append_assoc]
        · rw [hr1, hu2, hr2]
          exact overwriteHint_lastHintRun_cons it its ci.uuid
            ci.loaded_path_run
        · rw [he1, hu2, he2]
          exact overwriteHint_lastHintEtc_cons it its ci.uuid
            ci.loaded_path_etc
      · refine Or.inr ⟨by rw [hu1]; exact hnm2, ?_, ?_, ?_,
          hs1.trans hs2, hx1.trans hx2, hg1.trans hg2⟩
        · rw [hc1, hc2, hu1]
          simp only [profilesOfItems]
        · rw [hr1, hr2, hu1]
          exact overwriteHint_hintRun1_cons it its ci'.uuid
        · rw [he1, he2, hu1]
          exact overwriteHint_hintEtc1_cons it its ci'.uuid
    · have hnm0 : ci1.uuid ∉ infos0.map (fun ci => ci.uuid) := by
        intro hmem
        exact hnm1 (scanStep_uuid_mono infos0 it ci1.uuid hmem)
      have hp : profile1 it ci1.uuid = [] := by
        by_contra hp
        exact hnm1 (scanStep_action_uuid_mem infos0 it ci1.uuid (Or.inl hp))
      have hhr : hintRun1 it ci1.uuid = none := by
        by_contra hhr
        exact hnm1
          (scanStep_action_uuid_mem infos0 it ci1.uuid (Or.inr (Or.inl hhr)))
      have hhe : hintEtc1 it ci1.uuid = none := by
        by_contra hhe
        exact hnm1
          (scanStep_action_uuid_mem infos0 it ci1.uuid (Or.inr (Or.inr hhe)))
      refine Or.inr ⟨hnm0, ?_, ?_, ?_, hs1, hx1, hg1⟩
      · rw [hc1]
        simp only [profilesOfItems, hp, List.nil_append]
      · rw [hr1, lastHintRun_cons_of_none it its ci1.uuid hhr]
      · rw [he1, lastHintEtc_cons_of_none it its ci1.uuid hhe]

/-! ### Characterizing a whole rescan of the plugin state -/

/-- Characterization of the post-scan record list: every record holds
exactly the stream's observations and last hints for its uuid, and its
exported fields are those of the pre-scan record of the same uuid (or all
clear for a uuid that had no record). Requires the pre-scan state to be in
the steady state: distinct uuids and clear hint fields. -/
theorem scanPhase_char (fs : Filesystem) (st : PluginState)
    (hnodup : (st.conn_infos.map (fun ci => ci.uuid)).Nodup)
    (hclear : HintsClear st.conn_infos)
    (ci1 : NMSKeyfileConnInfo)
    (h : ci1 ∈ (scanPhase fs st).conn_infos) :
    ci1.cisd_lst =
      profilesOfItems
        (entryStream fs st.dirname_run st.dirname_etc st.dirname_libs)
        ci1.uuid ∧
    ci1.loaded_path_run =
      lastHintRun
        (entryStream fs st.dirname_run st.dirname_etc st.dirname_libs)
        ci1.uuid ∧
    ci1.loaded_path_etc =
      lastHintEtc
        (entryStream fs st.dirname_run st.dirname_etc st.dirname_libs)
        ci1.uuid ∧
    ((∃ ci ∈ st.conn_infos, ci1.uuid = ci.uuid ∧
        ci1.storage_type_exported = ci.storage_type_exported ∧
        ci1.connection_exported = ci.connection_exported ∧
        ci1.storage = ci.storage) ∨
      (ci1.uuid ∉ st.conn_infos.map (fun ci => ci.uuid) ∧
        ci1.storage_type_exported = none ∧
        ci1.connection_exported = none ∧
        ci1.storage = none)) := by
  have h0 : ci1 ∈ (entryStream fs st.dirname_run st.dirname_etc
      st.dirname_libs).foldl scanStep
      (st.conn_infos.map (fun ci => { ci with cisd_lst := [] })) := h
  have hnodup0 : ((st.conn_infos.map
      (fun ci => { ci with cisd_lst := ([] : List ConnInfoStorageData) })).map
      (fun ci => ci.uuid)).Nodup := by
    rw [List.map_map]
    exact hnodup
  rcases scan_foldl_char _ _ hnodup0 ci1 h0 with
    ⟨ci', hci', hu, hc, hr, he, hs, hx, hg⟩ |
    ⟨hnm, hc, hr, he, hs, hx, hg⟩
  · obtain ⟨ci, hci, heq⟩ := List.mem_map.mp hci'
    subst heq
    refine ⟨?_, ?_, ?_, Or.inl ⟨ci, hci, hu, hs, hx, hg⟩⟩
    · rw [hc, hu]
      rfl
    · rw [hr, hu]
      simp [(hclear ci hci).1, overwriteHint_none_right]
    · rw [he, hu]
      simp [(hclear ci hci).2, overwriteHint_none_right]
  · rw [List.map_map] at hnm
    exact ⟨hc, hr, he, Or.inr ⟨hnm, hs, hx, hg⟩⟩

theorem scan_foldl_uuid_mono (items : List ScanItem) :
    ∀ (infos0 : List NMSKeyfileConnInfo) (u : String),
    u ∈ infos0.map (fun ci => ci.uuid) →
    u ∈ (items.foldl scanStep infos0).map (fun ci => ci.uuid) := by
  induction items with
  | nil => intro infos0 u h; exact h
  | cons it its ih =>
    intro infos0 u h
    rw [List.foldl_cons]
    exact ih _ u (scanStep_uuid_mono infos0 it u h)

/-- Every uuid with at least one observation in the stream has a record
after the walk. -/
theorem scan_foldl_covers (items : List ScanItem) :
    ∀ (infos0 : List NMSKeyfileConnInfo) (u : String),
    profilesOfItems items u ≠ [] →
    u ∈ (items.foldl scanStep infos0).map (fun ci => ci.uuid) := by
  induction items with
  | nil => intro infos0 u h; exact absurd rfl h
  | cons it its ih =>
    intro infos0 u h
    rw [List.foldl_cons]
    by_cases hits : profilesOfItems its u = []
    · have hit : profile1 it u ≠ [] := by
        intro hp
        apply h
        simp only [profilesOfItems, hp, hits, List.nil_append]
      exact scan_foldl_uuid_mono its _ u
        (scanStep_action_uuid_mem infos0 it u (Or.inl hit))
    · exact ih _ u hits

theorem scanPhase_covers (fs : Filesystem) (st : PluginState) (u : String)
    (h : profilesOfItems
      (entryStream fs st.dirname_run st.dirname_etc st.dirname_libs) u ≠
      []) :
    u ∈ ((scanPhase fs st).conn_infos).map (fun ci => ci.uuid) :=
  scan_foldl_covers _ _ u h

/-- A completed reload preserves distinctness of the record uuids. -/
theorem reload_state_nodup {fs : Filesystem} {st : PluginState}
    {out : ReloadResult} (h : _do_reload_all fs st = some out)
    (hnodup : (st.conn_infos.map (fun ci => ci.uuid)).Nodup) :
    (out.state.conn_infos.map (fun ci => ci.uuid)).Nodup := by
  obtain ⟨infos, dels, mods, n', hp, hst, -, -, -, -, -, -, -⟩ :=
    reload_eq h
  rw [hst]
  exact List.Nodup.sublist (processInfos_uuid_sublist fs _ _ _ _ _ _ hp)
    (scanPhase_nodup fs st hnodup)

/-- A completed reload re-establishes the steady state: every surviving
record has clear hint fields. -/
theorem reload_hintsClear {fs : Filesystem} {st : PluginState}
    {out : ReloadResult} (h : _do_reload_all fs st = some out) :
    HintsClear out.state.conn_infos := by
  obtain ⟨infos, dels, mods, n', hp, hst, -, -, -, -, -, -, -⟩ :=
    reload_eq h
  intro ci hci
  rw [hst] at hci
  obtain ⟨ci0, -, m, step, hres, hk⟩ :=
    processInfos_kept_src fs _ _ _ _ _ _ hp ci hci
  exact resolveRecord_kept_hints hres hk

/-- Every uuid with at least one on-disk observation has a record after a
completed reload of a steady-state plugin. -/
theorem reload_covers {fs : Filesystem} {st : PluginState}
    {out : ReloadResult} (h : _do_reload_all fs st = some out)
    (hnodup : (st.conn_infos.map (fun ci => ci.uuid)).Nodup)
    (hclear : HintsClear st.conn_infos) (u : String)
    (hne : profilesOfItems
      (entryStream fs st.dirname_run st.dirname_etc st.dirname_libs) u ≠
      []) :
    u ∈ out.state.conn_infos.map (fun ci => ci.uuid) := by
  obtain ⟨infos, dels, mods, n', hp, hst, -, -, -, -, -, -, -⟩ :=
    reload_eq h
  obtain ⟨ciA, hciA, huA⟩ := List.mem_map.mp (scanPhase_covers fs st u hne)
  obtain ⟨hcA, -, -, -⟩ := scanPhase_char fs st hnodup hclear ciA hciA
  have hcisdne : ciA.cisd_lst ≠ [] := by
    rw [hcA, huA]
    exact hne
  obtain ⟨m, step, hres, hkeep, -, -⟩ :=
    processInfos_mem fs _ _ _ _ _ _ hp ciA hciA
  obtain ⟨masked, -, hstep⟩ := resolveRecord_eq hres
  cases hso : sortObs ciA.cisd_lst with
  | nil =>
    exact absurd (hso ▸ (sortObs_perm ciA.cisd_lst).symm).eq_nil hcisdne
  | cons best rest =>
    obtain ⟨k, hk⟩ := resolveCore_kept_nonempty
      { ciA with loaded_path_run := none, loaded_path_etc := none }
      masked best rest m
    have hk2 : step.kept = some k := by
      rw [hstep, hso]
      exact hk
    have hku : k.uuid = ciA.uuid := resolveRecord_kept_uuid hres hk2
    rw [hst]
    exact List.mem_map.mpr ⟨k, hkeep k hk2, hku.trans huA⟩

/-! ### Stability of the per-record resolution -/

theorem compare_ignore_secrets_refl (c : NMConnection) :
    nm_connection_compare_ignore_secrets c c = true := by
  simp [nm_connection_compare_ignore_secrets]

/-- Once a record's exported connection is what the winner branch produces
for a given best observation, resolving again against the same best
observation detects no modification. -/
theorem winnerModified_stable (r2 rA : NMSKeyfileConnInfo)
    (best : ConnInfoStorageData) (c : NMConnection)
    (hbc : best.connection = some c)
    (hconn : r2.connection_exported =
      (if winnerModified rA best then best.connection
       else rA.connection_exported)) :
    winnerModified r2 best = false := by
  by_cases hwm : winnerModified rA best = true
  · rw [if_pos hwm, hbc] at hconn
    simp [winnerModified, _conn_info_has_equal_connection, hbc, hconn,
      compare_ignore_secrets_refl]
  · rw [if_neg hwm] at hconn
    have hwm2 : _conn_info_has_equal_connection rA c = true := by
      cases hcase : _conn_info_has_equal_connection rA c with
      | true => rfl
      | false =>
        exfalso
        apply hwm
        simp [winnerModified, hbc, hcase]
    rcases hA : rA.connection_exported with _ | p
    · rw [_conn_info_has_equal_connection, hA] at hwm2
      cases hwm2
    · have hcp : nm_connection_compare_ignore_secrets c p = true := by
        rw [_conn_info_has_equal_connection, hA] at hwm2
        exact hwm2
      simp [winnerModified, hbc, _conn_info_has_equal_connection, hconn, hA,
        hcp]

/-- Stability of the per-record loop: a record whose observations and
surviving hints are unchanged since a previous resolution, and whose
exported fields are exactly what that resolution produced, resolves again
without queuing a removal or a modification. -/
theorem resolve_stable {fs : Filesystem} {ciA ci2 : NMSKeyfileConnInfo}
    {m1 m2 : Nat} {step1 step2 : RecordStep} {k : NMSKeyfileConnInfo}
    (h1 : resolveRecord fs ciA m1 = some step1)
    (hk : step1.kept = some k)
    (hobs : ∀ sd ∈ ciA.cisd_lst, sd.connection.isSome = true)
    (hcisd : ci2.cisd_lst = ciA.cisd_lst)
    (hrun : ci2.loaded_path_run = ciA.loaded_path_run)
    (hetc : ci2.loaded_path_etc = ciA.loaded_path_etc)
    (htier : ci2.storage_type_exported = k.storage_type_exported)
    (hconn : ci2.connection_exported = k.connection_exported)
    (h2 : resolveRecord fs ci2 m2 = some step2) :
    step2.del_event = none ∧ step2.mod_event = none := by
  obtain ⟨masked1, happ1, hs1⟩ := resolveRecord_eq h1
  obtain ⟨masked2, happ2, hs2⟩ := resolveRecord_eq h2
  have hch : consolidateHint ci2 = consolidateHint ciA := by
    unfold consolidateHint
    rw [hrun, hetc]
  have hsorteq : sortObs ci2.cisd_lst = sortObs ciA.cisd_lst := by
    rw [hcisd]
  have hmeq : masked2 = masked1 := by
    rw [hch, hsorteq, happ1] at happ2
    exact (congrArg Prod.fst (Option.some.inj happ2)).symm
  subst hmeq
  by_cases hmem : ci2.storage_type_exported = some StorageType.mem
  · have hmem2 : ({ ci2 with loaded_path_run := none, loaded_path_etc := none } : NMSKeyfileConnInfo).storage_type_exported = some StorageType.mem :=
      hmem
    obtain ⟨k2, -, -, -, -, hdel, hmod⟩ :=
      resolveCore_mem_spec
        { ci2 with loaded_path_run := none, loaded_path_etc := none }
        masked2 (sortObs ci2.cisd_lst) m2 hmem2
    rw [hs2]
    exact ⟨hdel, hmod⟩
  · have hmemA : ciA.storage_type_exported ≠ some StorageType.mem := by
      intro hA
      obtain ⟨kA, hkA, -, -, htA, -, -⟩ :=
        resolveCore_mem_spec
          { ciA with loaded_path_run := none, loaded_path_etc := none }
          masked2 (sortObs ciA.cisd_lst) m1 hA
      rw [hs1] at hk
      have hke : kA = k := Option.some.inj (hkA.symm.trans hk)
      apply hmem
      rw [htier, ← hke, htA]
      exact hA
    have hmem2' : ({ ci2 with loaded_path_run := none, loaded_path_etc := none } : NMSKeyfileConnInfo).storage_type_exported ≠ some StorageType.mem :=
      hmem
    have hmemA' : ({ ciA with loaded_path_run := none, loaded_path_etc := none } : NMSKeyfileConnInfo).storage_type_exported ≠ some StorageType.mem :=
      hmemA
    cases hso : sortObs ciA.cisd_lst with
    | nil =>
      exfalso
      rw [hs1, hso, resolveCore_empty_spec _ masked2 m1 hmemA'] at hk
      exact Option.noConfusion hk
    | cons best rest =>
      have hbm : best ∈ ciA.cisd_lst := by
        have hbs : best ∈ sortObs ciA.cisd_lst := by
          rw [hso]
          exact List.mem_cons_self _ _
        exact (sortObs_perm ciA.cisd_lst).mem_iff.mp hbs
      obtain ⟨c, hbc⟩ := Option.isSome_iff_exists.mp (hobs best hbm)
      cases masked2 with
      | true =>
        obtain ⟨kA, hkA, -, hkAc, -, -, -, -⟩ :=
          resolveCore_masked_spec
            { ciA with loaded_path_run := none, loaded_path_etc := none }
            best rest m1 hmemA'
        rw [hs1, hso] at hk
        have hke : kA = k := Option.some.inj (hkA.symm.trans hk)
        have hc2 : ci2.connection_exported = none := by
          rw [hconn, ← hke]
          exact hkAc
        have hdelnone : delEventIf { ci2 with loaded_path_run := none, loaded_path_etc := none } = none := by
          simp [delEventIf, hc2]
        rw [hs2, hsorteq, hso]
        obtain ⟨k2, -, -, -, -, -, hdel2, hmod2⟩ :=
          resolveCore_masked_spec
            { ci2 with loaded_path_run := none, loaded_path_etc := none }
            best rest m2 hmem2'
        exact ⟨hdel2.trans hdelnone, hmod2⟩
      | false =>
        obtain ⟨kA, hkA, -, -, hkAc, -, -, -⟩ :=
          resolveCore_winner_spec
            { ciA with loaded_path_run := none, loaded_path_etc := none }
            best rest m1 hmemA'
        rw [hs1, hso] at hk
        have hke : kA = k := Option.some.inj (hkA.symm.trans hk)
        have hconn2 : ci2.connection_exported = (if winnerModified { ciA with loaded_path_run := none, loaded_path_etc := none } best then best.connection else ({ ciA with loaded_path_run := none, loaded_path_etc := none } : NMSKeyfileConnInfo).connection_exported) := by
          rw [hconn, ← hke]
          exact hkAc
        have hwm2 : winnerModified { ci2 with loaded_path_run := none, loaded_path_etc := none } best = false := by
          apply winnerModified_stable _
            { ciA with loaded_path_run := none, loaded_path_etc := none }
            best c hbc
          exact hconn2
        rw [hs2, hsorteq, hso]
        obtain ⟨k2, -, -, -, -, -, hdel2, hmod2⟩ :=
          resolveCore_winner_spec
            { ci2 with loaded_path_run := none, loaded_path_etc := none }
            best rest m2 hmem2'
        refine ⟨hdel2, ?_⟩
        rw [hmod2]
        simp [hwm2]

/-- C5. Reload is idempotent: for every configuration and every state of
the configured directories, running `_do_reload_all` twice from a
steady-state plugin (distinct record uuids and clear transient hint
fields — the state every completed reload re-establishes) with no
filesystem change between the two runs makes the second reload emit zero
removal notifications and zero add/modify notifications. -/
theorem claim_C5_idempotent (fs : Filesystem) (st : PluginState)
    (r1 r2 : ReloadResult)
    (hnodup : (st.conn_infos.map (fun ci => ci.uuid)).Nodup)
    (hclear : HintsClear st.conn_infos)
    (h1 : _do_reload_all fs st = some r1)
    (h2 : _do_reload_all fs r1.state = some r2) :
    r2.removals = [] ∧ r2.changes = [] := by
  obtain ⟨infos1, dels1, mods1, n1, hp1, hst1, -, -, -, hdr1, hde1, hdl1, -⟩ :=
    reload_eq h1
  obtain ⟨infos2, dels2, mods2, n2, hp2, -, hrem2, hch2, -, -, -, -, -⟩ :=
    reload_eq h2
  have hn1 : (r1.state.conn_infos.map (fun ci => ci.uuid)).Nodup :=
    reload_state_nodup h1 hnodup
  have hc1 : HintsClear r1.state.conn_infos := reload_hintsClear h1
  have hstream : entryStream fs r1.state.dirname_run r1.state.dirname_etc
      r1.state.dirname_libs =
      entryStream fs st.dirname_run st.dirname_etc st.dirname_libs := by
    rw [hdr1, hde1, hdl1]
  have hquiet : ∀ ci2 ∈ (scanPhase fs r1.state).conn_infos,
      ∀ m step, resolveRecord fs ci2 m = some step →
      step.del_event = none ∧ step.mod_event = none := by
    intro ci2 hci2 m step hres
    obtain ⟨hc2, hr2, he2, hdisj⟩ :=
      scanPhase_char fs r1.state hn1 hc1 ci2 hci2
    rcases hdisj with ⟨ci1, hci1, hu21, hs21, hx21, hg21⟩ |
      ⟨hnm, hs2, hx2, hg2⟩
    · rw [hst1] at hci1
      obtain ⟨ciA, hciA, mA, stepA, hresA, hkA⟩ :=
        processInfos_kept_src fs _ _ _ _ _ _ hp1 ci1 hci1
      obtain ⟨hcA, hrA, heA, -⟩ := scanPhase_char fs st hnodup hclear ciA hciA
      have huA : ci1.uuid = ciA.uuid := resolveRecord_kept_uuid hresA hkA
      refine resolve_stable hresA hkA
        (fun sd hsd => (scanPhase_obsInv fs st ciA hciA sd hsd).1)
        ?_ ?_ ?_ hs21 hx21 hres
      · rw [hc2, hcA, hstream, hu21, huA]
      · rw [hr2, hrA, hstream, hu21, huA]
      · rw [he2, heA, hstream, hu21, huA]
    · have hpoi : profilesOfItems
          (entryStream fs st.dirname_run st.dirname_etc st.dirname_libs)
          ci2.uuid = [] := by
        by_contra hne
        exact hnm (reload_covers h1 hnodup hclear ci2.uuid hne)
      have hc2' : ci2.cisd_lst = [] := by
        rw [hc2, hstream, hpoi]
      obtain ⟨masked, -, hstep⟩ := resolveRecord_eq hres
      have hsort : sortObs ci2.cisd_lst = [] := by
        rw [hc2']
        rfl
      have hmemne : ({ ci2 with loaded_path_run := none, loaded_path_etc := none } : NMSKeyfileConnInfo).storage_type_exported ≠ some StorageType.mem := by
        simp [hs2]
      rw [hstep, hsort, resolveCore_empty_spec _ masked m hmemne]
      constructor
      · simp [delEventIf, hx2]
      · rfl
  have hdels : dels2 = [] := by
    rw [List.eq_nil_iff_forall_not_mem]
    intro e he
    obtain ⟨ci2, hci2, m, step, hres, hdel⟩ :=
      processInfos_del_src fs _ _ _ _ _ _ hp2 e he
    rw [(hquiet ci2 hci2 m step hres).1] at hdel
    cases hdel
  have hmods : mods2 = [] := by
    rw [List.eq_nil_iff_forall_not_mem]
    intro u hu
    obtain ⟨ci2, hci2, m, step, hres, hmod⟩ :=
      processInfos_mod_src fs _ _ _ _ _ _ hp2 u hu
    rw [(hquiet ci2 hci2 m step hres).2] at hmod
    cases hmod
  refine ⟨?_, ?_⟩
  · rw [hrem2, hdels]
  · rw [hch2, hmods]
    rfl

/-- Concrete idempotence witness: reloading the two-profile run directory
twice from the empty steady state emits nothing on the second pass. -/
theorem claim_C5_idempotent_witness :
    (reloadOut fsC1w (reloadOut fsC1w stEmpty).state).removals = [] ∧
    (reloadOut fsC1w (reloadOut fsC1w stEmpty).state).changes = [] :=
  claim_C5_idempotent fsC1w stEmpty (reloadOut fsC1w stEmpty)
    (reloadOut fsC1w (reloadOut fsC1w stEmpty).state)
    (by decide)
    (fun ci hci => absurd hci (List.not_mem_nil ci))
    (by rfl) (by rfl)

end NMKeyfile
